import Mathlib

/-! # simpleFileSharing: the storage layer

A shallow embedding of `src/storage.cpp` (class `Storage`) and, from `src/main.cpp`,
of the download handler, of `parse_multipart_file`, of `basename_only` and of the end of
the upload handler, followed by theorems about them.

Modelling conventions

* A `std::string` is a list of bytes; a byte (`unsigned char`) is a `Nat`.
* `std::unordered_map<string,string>` is `UMap`: a list of entries with
  pairwise distinct keys.  The order of the list is the (unspecified)
  iteration order of the hash map.
* The directory `resources_dir` is a `UMap` from entry name to file content;
  the file at `mapping_path` and the file at `mapping_path + ".tmp"` are two
  optional byte strings kept apart from the directory listing.
* What the environment decides (the draws of the random distribution, whether
  a stream opens, how many bytes a stream write stores, whether a rename or a
  removal succeeds) is an explicit argument of the operation.
* A loop without a bound in the source takes the number of iterations left as an
  argument; for the JSON reader the theorems on termination show that the number
  passed is enough.
* Locks are not modelled: every operation runs alone.
-/

namespace SimpleFileSharing

/-- A `std::string`: a sequence of `unsigned char` values. -/
abbrev Str := List Nat

/-- The bytes of an ASCII literal. -/
def bytes (s : String) : Str := s.toList.map Char.toNat

/-! ## unordered_map -/

/-- Lookup in an entry list (`find`). -/
def assoc_find (k : Str) : List (Str × Str) → Option Str
  | [] => none
  | e :: l => if e.1 = k then some e.2 else assoc_find k l

/-- Removal of a key from an entry list (`erase`). -/
def assoc_erase (k : Str) (l : List (Str × Str)) : List (Str × Str) :=
  l.filter (fun e => decide (e.1 ≠ k))

/-- A `std::unordered_map<std::string, std::string>`. -/
structure UMap where
  entries : List (Str × Str)
  nodup : (entries.map Prod.fst).Nodup

instance : DecidableEq UMap := fun a b =>
  decidable_of_iff (a.entries = b.entries)
    ⟨fun h => by cases a; cases b; cases h; rfl, fun h => by rw [h]⟩

/-- The empty map. -/
def UMap.empty : UMap := ⟨[], List.nodup_nil⟩

/-- The lookup `m.find(k)`: the mapped value, or `none` for `m.end()`. -/
def UMap.find (m : UMap) (k : Str) : Option Str := assoc_find k m.entries

/-- The removal `m.erase(k)`. -/
def UMap.erase (m : UMap) (k : Str) : UMap :=
  ⟨assoc_erase k m.entries,
    List.Nodup.sublist ((List.filter_sublist m.entries).map Prod.fst) m.nodup⟩

/-- The assignment `m[k] = v`: the entry of `k` is created or overwritten. -/
def UMap.assign (m : UMap) (k v : Str) : UMap :=
  ⟨(k, v) :: assoc_erase k m.entries,
    List.nodup_cons.2
      ⟨by simp [assoc_erase, List.mem_map, List.mem_filter],
       List.Nodup.sublist ((List.filter_sublist m.entries).map Prod.fst) m.nodup⟩⟩

/-! ## Identifiers -/

/-- The table `kAlphabet` of `generate_id`. -/
def kAlphabet : Str :=
  bytes "0123456789ABCDEFGHIJKLMNOPQRSTUVWXYZabcdefghijklmnopqrstuvwxyz"

/-- The function `Storage::generate_id(len)`.  The value `draw i` is the result of the
`i`-th call `dist(gen)` of the `uniform_int_distribution<size_t>(0, 61)`. -/
def generate_id (len : Nat) (draw : Nat → Fin 62) : Str :=
  (List.range len).map (fun i => kAlphabet.getD (draw i).val 0)

/-- The bytes `0-9`, `A-Z` and `a-z`. -/
def is_alnum (c : Nat) : Prop := (48 ≤ c ∧ c ≤ 57) ∨ (65 ≤ c ∧ c ≤ 90) ∨ (97 ≤ c ∧ c ≤ 122)

instance : DecidablePred is_alnum := fun c => by unfold is_alnum; exact inferInstance

/-- The part of the ECMAScript pattern syntax that `is_valid_id` uses. -/
inductive Regex where
  /-- The anchor `^`. -/
  | bol : Regex
  /-- The anchor `$`. -/
  | eol : Regex
  /-- A bracket expression: one byte lying in one of the listed ranges `lo-hi`. -/
  | cls : List (Nat × Nat) → Regex
  /-- The concatenation of two expressions. -/
  | seq : Regex → Regex → Regex
  /-- The bounded repetition `r{lo,hi}`. -/
  | rep : Regex → Nat → Nat → Regex

/-- Whether byte `c` lies in one of the ranges of a bracket expression. -/
def in_ranges (ranges : List (Nat × Nat)) (c : Nat) : Bool :=
  ranges.any (fun r => decide (r.1 ≤ c ∧ c ≤ r.2))

/-- Apply `f` exactly `n` times. -/
def iter_exact (f : List Str → List Str) : Nat → List Str → List Str
  | 0, rests => rests
  | n + 1, rests => iter_exact f n (f rests)

/-- Apply `f` from `0` up to `n` times and collect every result. -/
def iter_upto (f : List Str → List Str) : Nat → List Str → List Str
  | 0, rests => rests
  | n + 1, rests => rests ++ iter_upto f n (f rests)

/-- One matching step over `input`: from the inputs that remain after a partial match, the
inputs that remain after the partial match is extended by one match of the expression. -/
def Regex.step (input : Str) : Regex → List Str → List Str
  | Regex.bol, rests => rests.filter (fun r => decide (r.length = input.length))
  | Regex.eol, rests => rests.filter (fun r => r.isEmpty)
  | Regex.cls ranges, rests =>
    rests.filterMap (fun r =>
      match r with
      | [] => none
      | c :: t => if in_ranges ranges c then some t else none)
  | Regex.seq a b, rests => Regex.step input b (Regex.step input a rests)
  | Regex.rep r lo hi, rests =>
    iter_upto (Regex.step input r) (hi - lo) (iter_exact (Regex.step input r) lo rests)

/-- The call `std::regex_match(s, re)`: some match of `re` that starts at the beginning of `s`
consumes the whole of `s`. -/
def regex_match (s : Str) (re : Regex) : Bool :=
  (Regex.step s re [s]).any (fun r => r.isEmpty)

/-- The pattern `^[A-Za-z0-9]{6,64}$` of `is_valid_id`. -/
def id_regex : Regex :=
  Regex.seq Regex.bol
    (Regex.seq (Regex.rep (Regex.cls [(65, 90), (97, 122), (48, 57)]) 6 64) Regex.eol)

/-- The function `Storage::is_valid_id`. -/
def is_valid_id (id : Str) : Bool := regex_match id id_regex

/-- The function `Storage::sanitize_filename`. -/
def sanitize_filename (name : Str) : Str :=
  name.foldl (fun out c => if c = 34 ∨ c = 92 ∨ c < 32 then out ++ [95] else out ++ [c]) []

/-! ## Listing -/

/-- The comparison `a < b` of two `std::string`s: lexicographic over the bytes, a proper prefix
being smaller. -/
def str_lt : Str → Str → Bool
  | [], [] => false
  | [], _ :: _ => true
  | _ :: _, [] => false
  | a :: as, b :: bs => if a < b then true else if b < a then false else str_lt as bs

/-- The call `std::sort(v.begin(), v.end(), comp)`, as an insertion sort: `a` is put before the
first element `b` that `comp` does not put before `a`. -/
def std_sort {α : Type} (comp : α → α → Bool) (v : List α) : List α :=
  List.insertionSort (fun a b => comp b a = false) v

/-- The comparator of `Storage::list`: `a.first < b.first`. -/
def list_comp (a b : Str × Str) : Bool := str_lt a.1 b.1

/-! ## JSON -/

/-- The function `isspace` of the C locale. -/
def isspace (c : Nat) : Bool := decide (c = 32 ∨ (9 ≤ c ∧ c ≤ 13))

/-- The byte `content[i]`. -/
def char_at (content : Str) (i : Nat) : Nat := content.getD i 0

/-- The loop of the lambda `skip_ws`, with the number of iterations left. -/
def skip_ws_loop (content : Str) : Nat → Nat → Nat
  | 0, i => i
  | fuel + 1, i =>
    if i < content.length ∧ isspace (char_at content i) = true then
      skip_ws_loop content fuel (i + 1)
    else i

/-- The lambda `skip_ws` of `parse_json_object_string_map`: the index after the white space
that starts at `i`. -/
def skip_ws (content : Str) (i : Nat) : Nat :=
  skip_ws_loop content (content.length - i) i

/-- The loop of the lambda `parse_string`, with the number of iterations left: the result
is the returned flag, the index reached and the string `out`. -/
def parse_string_loop (content : Str) : Nat → Nat → Str → Bool × Nat × Str
  | 0, i, out => (false, i, out)
  | fuel + 1, i, out =>
    if i < content.length then
      let c := char_at content i
      let i1 := i + 1
      if c = 34 then (true, i1, out)
      else if c = 92 ∧ i1 < content.length then
        let e := char_at content i1
        let i2 := i1 + 1
        if e = 34 ∨ e = 92 ∨ e = 47 then parse_string_loop content fuel i2 (out ++ [e])
        else if e = 98 then parse_string_loop content fuel i2 (out ++ [8])
        else if e = 102 then parse_string_loop content fuel i2 (out ++ [12])
        else if e = 110 then parse_string_loop content fuel i2 (out ++ [10])
        else if e = 114 then parse_string_loop content fuel i2 (out ++ [13])
        else if e = 116 then parse_string_loop content fuel i2 (out ++ [9])
        else parse_string_loop content fuel i2 out
      else parse_string_loop content fuel i1 (out ++ [c])
    else (false, i, out)

/-- The lambda `parse_string` of `parse_json_object_string_map`, called with read index `i` and
a string `out`: the returned flag, the index reached and the new value of `out`. -/
def parse_string (content : Str) (i : Nat) (out : Str) : Bool × Nat × Str :=
  if i ≥ content.length ∨ char_at content i ≠ 34 then (false, i, out)
  else parse_string_loop content (content.length - (i + 1)) (i + 1) []

/-- The main loop `while (i < n)` of `parse_json_object_string_map`, with the number of
iterations left. -/
def parse_pairs_loop (content : Str) : Nat → Nat → UMap → UMap
  | 0, _, m => m
  | fuel + 1, i, m =>
    if i < content.length then
      let i1 := skip_ws content i
      let rk := parse_string content i1 []
      if rk.1 = false then m
      else
        let i2 := skip_ws content rk.2.1
        if i2 ≥ content.length ∨ char_at content i2 ≠ 58 then m
        else
          let i3 := skip_ws content (i2 + 1)
          let rv := parse_string content i3 []
          if rv.1 = false then m
          else
            let m1 := m.assign rk.2.2 rv.2.2
            let i4 := skip_ws content rv.2.1
            if i4 < content.length ∧ char_at content i4 = 44 then
              parse_pairs_loop content fuel (i4 + 1) m1
            else if i4 < content.length ∧ char_at content i4 = 125 then m1
            else parse_pairs_loop content fuel i4 m1
    else m

/-- The function `Storage::parse_json_object_string_map`. -/
def parse_json_object_string_map (content : Str) : UMap :=
  let i0 := skip_ws content 0
  if i0 ≥ content.length ∨ char_at content i0 ≠ 123 then UMap.empty
  else
    let i1 := skip_ws content (i0 + 1)
    if i1 < content.length ∧ char_at content i1 = 125 then UMap.empty
    else parse_pairs_loop content content.length i1 UMap.empty

/-- The function `json_escape`. -/
def json_escape (s : Str) : Str :=
  s.foldl (fun out c =>
    if c = 34 then out ++ [92, 34]
    else if c = 92 then out ++ [92, 92]
    else if c = 8 then out ++ [92, 98]
    else if c = 12 then out ++ [92, 102]
    else if c = 10 then out ++ [92, 110]
    else if c = 13 then out ++ [92, 114]
    else if c = 9 then out ++ [92, 116]
    else if c < 32 then out ++ [95]
    else out ++ [c]) []

/-- The loop body of `to_json_object_string_map`, over the entries in iteration order: the
state is the string `out` and the flag `first`. -/
def to_json_entries : List (Str × Str) → Str × Bool → Str × Bool
  | [], acc => acc
  | kv :: rest, (out, first) =>
    let out1 := if first = false then out ++ [44] else out
    to_json_entries rest
      (out1 ++ [34] ++ json_escape kv.1 ++ [34] ++ [58] ++ [34] ++ json_escape kv.2 ++ [34],
        false)

/-- The function `Storage::to_json_object_string_map`. -/
def to_json_object_string_map (m : UMap) : Str :=
  (to_json_entries m.entries ([123], true)).1 ++ [125]

/-! ## The store -/

/-- The struct `StorageConfig`. -/
structure StorageConfig where
  resources_dir : Str
  mapping_path : Str
  max_file_size : Nat
  deriving DecidableEq

/-- The path `dir / name` of an entry `name` directly under the directory `dir`. -/
structure FsPath where
  dir : Str
  name : Str
  deriving DecidableEq

/-- The files the store works on. -/
structure FileSystem where
  /-- The entries directly under `resources_dir`, each with its content. -/
  resources : UMap
  /-- The content of the file at `mapping_path`, when that file can be opened. -/
  mapping_file : Option Str
  /-- The content of the file at `mapping_path + ".tmp"`, when it exists. -/
  mapping_tmp : Option Str
  deriving DecidableEq

/-- The class `Storage` together with the files it works on. -/
structure Storage where
  cfg_ : StorageConfig
  mapping_ : UMap
  disk : FileSystem
  deriving DecidableEq

/-- The messages that `save_mapping` stores into `*err`. -/
inductive SaveErr where
  /-- The text "Failed to open temp mapping for write". -/
  | open_temp_mapping : SaveErr
  /-- The text "Rename failed: " followed by the system message. -/
  | rename_failed : SaveErr
  deriving DecidableEq

/-- The messages that `add_file_from_buffer` and `delete_file` store into `*err`. -/
inductive ErrMsg where
  /-- The text "File exceeds size limit". -/
  | size_limit : ErrMsg
  /-- The text "Failed to generate unique ID". -/
  | unique_id : ErrMsg
  /-- The text "Failed to open temp file for write". -/
  | open_temp_file : ErrMsg
  /-- The text "Rename failed: " followed by the system message. -/
  | rename_failed : ErrMsg
  /-- The text "Saved file, but failed to persist mapping: " followed by `save_err`, the
  message that `save_mapping` stored, if any. -/
  | persist_mapping : Option SaveErr → ErrMsg
  /-- The text "Invalid id". -/
  | invalid_id : ErrMsg
  /-- The text "Not found". -/
  | not_found : ErrMsg
  /-- The text "Failed to remove file: " followed by the system message. -/
  | remove_failed : ErrMsg
  /-- A message stored by `save_mapping` through the same pointer. -/
  | from_save : SaveErr → ErrMsg
  deriving DecidableEq

/-- What the environment decides during one call of `save_mapping`. -/
structure SaveOutcome where
  /-- Whether `ofstream out(tmp, ios::trunc)` is good. -/
  open_ok : Bool
  /-- How many bytes of `body` the stream stores before it is closed. -/
  written : Nat
  /-- Whether `fs::rename(tmp, cfg_.mapping_path, ec)` succeeds. -/
  rename_ok : Bool

/-- What the environment decides during one call of `add_file_from_buffer`. -/
structure AddOutcome where
  /-- The results of `dist(gen)`: `draw a i` is the `i`-th draw of attempt `a`. -/
  draw : Nat → Nat → Fin 62
  /-- Whether `ofstream out(tmp, ios::binary | ios::trunc)` is good. -/
  open_ok : Bool
  /-- How many bytes of `buffer` the stream stores before it is closed. -/
  written : Nat
  /-- Whether `fs::rename(tmp, finalp, ec)` succeeds. -/
  rename_ok : Bool
  /-- The outcome of the call of `save_mapping`. -/
  save : SaveOutcome

/-- What the environment decides during one call of `delete_file`. -/
structure DeleteOutcome where
  /-- Whether `fs::remove(p, ec)` succeeds. -/
  remove_ok : Bool
  /-- The outcome of the call of `save_mapping`. -/
  save : SaveOutcome

/-- The result of `add_file_from_buffer`: the returned flag, the value assigned to `out_id`
and the value assigned to `*err` (`none` when nothing is assigned). -/
structure AddResult where
  ok : Bool
  out_id : Option Str
  err : Option ErrMsg
  deriving DecidableEq

/-- The call `fs::exists(cfg_.resources_dir / name)`. -/
def fs_exists (disk : FileSystem) (name : Str) : Bool := (disk.resources.find name).isSome

/-- The bytes read from the file at `p`, an entry of `resources_dir`. -/
def read_file (disk : FileSystem) (p : FsPath) : Str := (disk.resources.find p.name).getD []

/-- The constructor `Storage::Storage(cfg)` over the files `disk`. -/
def Storage.create (cfg : StorageConfig) (disk : FileSystem) : Storage :=
  ⟨cfg, UMap.empty, disk⟩

/-- The function `Storage::save_mapping`: the returned flag, the value assigned to `*err` and
the files after the call. -/
def save_mapping (s : Storage) (o : SaveOutcome) : Bool × Option SaveErr × FileSystem :=
  let body := to_json_object_string_map s.mapping_
  if o.open_ok = false then (false, some SaveErr.open_temp_mapping, s.disk)
  else
    let tmp_content := body.take o.written
    if o.rename_ok = false then
      (false, some SaveErr.rename_failed, { s.disk with mapping_tmp := some tmp_content })
    else
      (true, none, { s.disk with mapping_file := some tmp_content, mapping_tmp := none })

/-- The function `Storage::load_mapping`. -/
def load_mapping (s : Storage) : Storage :=
  match s.disk.mapping_file with
  | none => s
  | some text => { s with mapping_ := parse_json_object_string_map text }

/-- The function `Storage::init`; `dirs_ok` is the result of `ensure_dirs`. -/
def init (s : Storage) (dirs_ok : Bool) : Bool × Storage :=
  if dirs_ok = false then (false, s) else (true, load_mapping s)

/-- The function `Storage::list`. -/
def list (s : Storage) : List (Str × Str) := std_sort list_comp s.mapping_.entries

/-- The function `Storage::get_original_name`: `some name` when it returns true with `out`
set to `name`, `none` when it returns false. -/
def get_original_name (s : Storage) (id : Str) : Option Str := s.mapping_.find id

/-- The function `Storage::blob_path_for`. -/
def blob_path_for (s : Storage) (id : Str) : Option FsPath :=
  if is_valid_id id = false then none
  else if fs_exists s.disk id then some ⟨s.cfg_.resources_dir, id⟩
  else none

/-- The loop `for (int attempt = 0; attempt < 10; ++attempt)` of `add_file_from_buffer`, with
the number of attempts left: the value of `id` after the loop. -/
def pick_id (disk : FileSystem) (draw : Nat → Nat → Fin 62) : Nat → Nat → Str
  | 0, _ => []
  | left + 1, attempt =>
    let candidate := generate_id 22 (draw attempt)
    if fs_exists disk candidate = false then candidate
    else pick_id disk draw left (attempt + 1)

/-- The function `Storage::add_file_from_buffer`. -/
def add_file_from_buffer (s : Storage) (o : AddOutcome) (buffer original_name : Str) :
    AddResult × Storage :=
  if s.cfg_.max_file_size > 0 ∧ buffer.length > s.cfg_.max_file_size then
    (⟨false, none, some ErrMsg.size_limit⟩, s)
  else
    let id := pick_id s.disk o.draw 10 0
    if id.isEmpty then (⟨false, none, some ErrMsg.unique_id⟩, s)
    else
      let tmp := id ++ bytes ".tmp"
      if o.open_ok = false then (⟨false, none, some ErrMsg.open_temp_file⟩, s)
      else
        let stored := buffer.take o.written
        if o.rename_ok = false then
          (⟨false, none, some ErrMsg.rename_failed⟩,
            { s with disk := { s.disk with resources := s.disk.resources.assign tmp stored } })
        else
          let s1 : Storage :=
            { s with
              disk := { s.disk with resources := (s.disk.resources.erase tmp).assign id stored },
              mapping_ := s.mapping_.assign id (sanitize_filename original_name) }
          let r := save_mapping s1 o.save
          let err := if r.1 = false then some (ErrMsg.persist_mapping r.2.1) else none
          (⟨true, some id, err⟩, { s1 with disk := r.2.2 })

/-- The function `Storage::delete_file`: the returned flag, the value assigned to `*err` and
the store after the call. -/
def delete_file (s : Storage) (o : DeleteOutcome) (id : Str) :
    Bool × Option ErrMsg × Storage :=
  if is_valid_id id = false then (false, some ErrMsg.invalid_id, s)
  else if fs_exists s.disk id = false then (false, some ErrMsg.not_found, s)
  else if o.remove_ok = false then (false, some ErrMsg.remove_failed, s)
  else
    let s1 : Storage :=
      { s with
        disk := { s.disk with resources := s.disk.resources.erase id },
        mapping_ := s.mapping_.erase id }
    let r := save_mapping s1 o.save
    (r.1, r.2.1.map ErrMsg.from_save, { s1 with disk := r.2.2 })

/-- The handler of `GET /download/(.+)` in `main.cpp`: `none` for the status 404, otherwise
the path read, the name put into `Content-Disposition` and the body sent. -/
def download (s : Storage) (id : Str) : Option (FsPath × Str × Str) :=
  if is_valid_id id = false then none
  else
    match get_original_name s id with
    | none => none
    | some name =>
      match blob_path_for s id with
      | none => none
      | some path => some (path, name, read_file s.disk path)

/-! ## Runs of the store -/

/-- One mutating call on the store, with what the environment decides during it. -/
inductive Op where
  /-- A call `add_file_from_buffer(buffer, original_name, ..)`. -/
  | add : AddOutcome → Str → Str → Op
  /-- A call `delete_file(id, ..)`. -/
  | del : DeleteOutcome → Str → Op

/-- The store after one call. -/
def Op.apply (s : Storage) : Op → Storage
  | Op.add o buffer original_name => (add_file_from_buffer s o buffer original_name).2
  | Op.del o id => (delete_file s o id).2.2

/-- The store after a sequence of calls. -/
def run (s : Storage) (ops : List Op) : Storage := ops.foldl Op.apply s

/-! ## Sample values -/

/-- A configuration without size limit. -/
def sample_cfg : StorageConfig := ⟨bytes "resources", bytes "mapping.json", 0⟩

/-- A configuration with a size limit of one byte. -/
def sample_cfg_limit : StorageConfig := ⟨bytes "resources", bytes "mapping.json", 1⟩

/-- An empty resources directory and no mapping file. -/
def sample_disk : FileSystem := ⟨UMap.empty, none, none⟩

/-- A fresh store over empty files. -/
def sample_store : Storage := Storage.create sample_cfg sample_disk

/-- A fresh store with a size limit of one byte. -/
def sample_store_limit : Storage := Storage.create sample_cfg_limit sample_disk

/-- A save where everything works. -/
def save_fine : SaveOutcome := ⟨true, 1000, true⟩

/-- An environment in which every draw is `0` and every file operation works. -/
def add_fine : AddOutcome := ⟨fun _ _ => 0, true, 1000, true, save_fine⟩

/-- An environment in which the device is full: the streams open, store no byte, and the
renames work. -/
def add_disk_full : AddOutcome := ⟨fun _ _ => 0, true, 0, true, ⟨true, 0, true⟩⟩

/-- A removal where everything works. -/
def del_fine : DeleteOutcome := ⟨true, save_fine⟩

/-- The id that `add_fine` draws: twenty-two times the digit `0`. -/
def sample_id : Str := List.replicate 22 48

/-- The store after `"hi"` was added under the name `hello.txt`. -/
def sample_store_hi : Storage :=
  (add_file_from_buffer sample_store add_fine (bytes "hi") (bytes "hello.txt")).2

/-- A mapping with two entries, iterated with the key `abcdef` first. -/
def sample_map_ab : UMap :=
  ⟨[(bytes "abcdef", bytes "a.txt"), (bytes "ABCDEF", bytes "b.txt")], by decide⟩

/-- The same mapping, iterated with the key `ABCDEF` first. -/
def sample_map_ba : UMap :=
  ⟨[(bytes "ABCDEF", bytes "b.txt"), (bytes "abcdef", bytes "a.txt")], by decide⟩

/-- A store whose mapping is `sample_map_ab`. -/
def sample_store_ab : Storage := ⟨sample_cfg, sample_map_ab, sample_disk⟩

/-- A store whose mapping is `sample_map_ba`. -/
def sample_store_ba : Storage := ⟨sample_cfg, sample_map_ba, sample_disk⟩

/-- Files whose mapping file was not written by the store: its one key is `../x`. -/
def sample_disk_foreign : FileSystem := ⟨UMap.empty, some (bytes "\x7b\"../x\":\"y\"\x7d"), none⟩

/-- Files whose mapping file holds the text written for `sample_map_ab`. -/
def sample_disk_saved : FileSystem :=
  ⟨UMap.empty, some (to_json_object_string_map sample_map_ab), none⟩

/-! ## Notions used in the statements about JSON -/

/-- A string that `json_escape` leaves as it is and that `parse_string` reads up to its end:
no double quote, no backslash, no byte below `0x20`. -/
def json_plain (s : Str) : Prop := ∀ c ∈ s, c ≠ 34 ∧ c ≠ 92 ∧ 32 ≤ c

/-- The text that `to_json_object_string_map` appends for one entry. -/
def pair_text (kv : Str × Str) : Str :=
  [34] ++ json_escape kv.1 ++ [34] ++ [58] ++ [34] ++ json_escape kv.2 ++ [34]

/-- The text that `to_json_object_string_map` appends for the entries after the first one. -/
def tail_text : List (Str × Str) → Str
  | [] => []
  | kv :: rest => 44 :: (pair_text kv ++ tail_text rest)

/-- The text that `to_json_object_string_map` puts between the braces. -/
def pairs_text : List (Str × Str) → Str
  | [] => []
  | kv :: rest => pair_text kv ++ tail_text rest

/-- The map that results from assigning the entries of a list, in order. -/
def assign_all (m : UMap) (l : List (Str × Str)) : UMap :=
  l.foldl (fun acc kv => acc.assign kv.1 kv.2) m

/-! ## Sample values for the failure policies -/

/-- A save where the temporary mapping file cannot be opened. -/
def save_broken : SaveOutcome := ⟨false, 0, true⟩

/-- An environment in which the blob is written and renamed but the mapping cannot be saved. -/
def add_save_broken : AddOutcome := ⟨fun _ _ => 0, true, 1000, true, save_broken⟩

/-- An environment in which the temporary file of the blob cannot be opened. -/
def add_open_broken : AddOutcome := ⟨fun _ _ => 0, false, 0, true, save_fine⟩

/-- A removal that works, followed by a save that does not. -/
def del_save_broken : DeleteOutcome := ⟨true, save_broken⟩

/-- A store whose mapping holds an entry for `sample_id` while no file of that name exists. -/
def sample_store_orphan : Storage :=
  ⟨sample_cfg, UMap.empty.assign sample_id (bytes "gone.txt"), sample_disk⟩

/-- Files in which the ten candidates that `add_fine` draws (all `sample_id`) are taken. -/
def sample_disk_taken : FileSystem :=
  ⟨UMap.empty.assign sample_id (bytes "old"), none, none⟩

/-- A store over `sample_disk_taken`. -/
def sample_store_taken : Storage := Storage.create sample_cfg sample_disk_taken

/-- A store whose mapping has the key `sample_id` followed by `.tmp`, with a file of that name:
the name of the temporary file that an upload under `sample_id` writes. -/
def sample_store_tmpkey : Storage :=
  ⟨sample_cfg, UMap.empty.assign (sample_id ++ bytes ".tmp") (bytes "y"),
    ⟨UMap.empty.assign (sample_id ++ bytes ".tmp") (bytes "old"), none, none⟩⟩

/-- An environment in which every draw is `1` and every file operation works. -/
def add_fine_one : AddOutcome := ⟨fun _ _ => 1, true, 1000, true, save_fine⟩

/-! ## The multipart reader of `main.cpp` -/

/-- The search of `std::string::find` over the rest of the string that starts at index `idx`:
the lowest index at which `pat` occurs, `none` for `npos`. -/
def find_in (pat : Str) : Str → Nat → Option Nat
  | [], idx => if pat.isEmpty then some idx else none
  | c :: t, idx => if pat.isPrefixOf (c :: t) then some idx else find_in pat t (idx + 1)

/-- The call `s.find(pat, pos)`. -/
def str_find (s pat : Str) (pos : Nat) : Option Nat :=
  if pos > s.length then none else find_in pat (s.drop pos) pos

/-- The call `s.substr(pos, count)` for `pos <= s.size()`. -/
def substr (s : Str) (pos count : Nat) : Str := (s.drop pos).take count

/-- What `parse_multipart_file` has computed when it reaches
`out_content.assign(body.data() + data_start, body.data() + data_end); return true;`: the file
name, the two bounds, and the content `[data_start, data_end)` of the body, which has no
defined value when the bounds are not in order. -/
structure MultipartFile where
  out_filename : Str
  data_start : Nat
  data_end : Nat
  out_content : Option Str
  deriving DecidableEq

/-- The value of `out_filename` after the block `if (has_name_file)` of
`parse_multipart_file`. -/
def multipart_filename (disp : Str) : Str :=
  match str_find disp (bytes "filename=") 0 with
  | none => []
  | some fnp =>
    match str_find disp [34] fnp with
    | none => []
    | some q1 =>
      match str_find disp [34] (q1 + 1) with
      | none => []
      | some q2 => if q2 > q1 then substr disp (q1 + 1) (q2 - (q1 + 1)) else []

/-- The value of `disp` in `parse_multipart_file`: the `Content-Disposition` line of the
headers. -/
def multipart_disp (headers : Str) : Str :=
  match str_find headers (bytes "Content-Disposition:") 0 with
  | none => []
  | some hpos =>
    let line_end := str_find headers [13, 10] hpos
    substr headers hpos
      ((match line_end with
        | none => headers.length
        | some le => le) - hpos)

/-- The loop `while (true)` of `parse_multipart_file`, with the number of iterations left and
the value of `start`: `none` when the function returns false. -/
def parse_multipart_loop (body sep : Str) : Nat → Nat → Option MultipartFile
  | 0, _ => none
  | fuel + 1, start =>
    match str_find body sep start with
    | none => none
    | some found =>
      let p := found + sep.length
      if p + 2 > body.length ∨ char_at body p ≠ 13 ∨ char_at body (p + 1) ≠ 10 then
        parse_multipart_loop body sep fuel p
      else
        let p2 := p + 2
        match str_find body [13, 10, 13, 10] p2 with
        | none => none
        | some hdr_end =>
          let headers := substr body p2 (hdr_end - p2)
          let data_start := hdr_end + 4
          let next_opt :=
            match str_find body ([13, 10] ++ sep) data_start with
            | some n => some n
            | none => str_find body ([13, 10] ++ (sep ++ [45, 45])) data_start
          match next_opt with
          | none => none
          | some next =>
            let data_end :=
              if next ≥ 2 ∧ char_at body (next - 2) = 13 ∧ char_at body (next - 1) = 10 then
                next - 2
              else next
            let disp := multipart_disp headers
            if (str_find disp (bytes "name=\"file\"") 0).isSome then
              some ⟨multipart_filename disp, data_start, data_end,
                if data_start ≤ data_end then some (substr body data_start (data_end - data_start))
                else none⟩
            else parse_multipart_loop body sep fuel (next + 2)

/-- The function `parse_multipart_file`: `none` when it returns false. -/
def parse_multipart_file (body content_type : Str) : Option MultipartFile :=
  match str_find content_type (bytes "boundary=") 0 with
  | none => none
  | some pos =>
    let boundary0 := substr content_type (pos + 9) (content_type.length - (pos + 9))
    let boundary :=
      if boundary0 ≠ [] ∧ boundary0.head? = some 34 ∧ boundary0.getLast? = some 34 then
        substr boundary0 1 ((boundary0.length + 2 ^ 64 - 2) % 2 ^ 64)
      else boundary0
    parse_multipart_loop body ([45, 45] ++ boundary) (body.length + 1) 0

/-- The content type of the sample multipart requests. -/
def sample_content_type : Str := bytes "multipart/form-data; boundary=B"

/-- A multipart body whose file part holds the two bytes `hi`. -/
def sample_body_hi : Str :=
  bytes "--B\r\nContent-Disposition: form-data; name=\"file\"; filename=\"h.txt\"\r\n\r\nhi\r\n--B--\r\n"

/-- A multipart body whose file part is empty. -/
def sample_body_empty : Str :=
  bytes "--B\r\nContent-Disposition: form-data; name=\"file\"; filename=\"e.txt\"\r\n\r\n\r\n--B--\r\n"

/-- A multipart body whose file part holds `ab` followed by a line break. -/
def sample_body_crlf : Str :=
  bytes "--B\r\nContent-Disposition: form-data; name=\"file\"; filename=\"a.txt\"\r\n\r\nab\r\n\r\n--B--\r\n"

/-! ## The main loop of the JSON reader, one iteration at a time -/

/-- One iteration of the loop `while (i < n)` of `parse_json_object_string_map`, entered with
read index `i` and map `m`: `Sum.inl r` when the loop is left and `r` is returned (the guard
fails, or a `break` is taken), `Sum.inr (i2, m2)` when the next iteration is entered with
read index `i2` and map `m2`. -/
def parse_pairs_step (content : Str) (i : Nat) (m : UMap) : UMap ⊕ (Nat × UMap) :=
  if i < content.length then
    let i1 := skip_ws content i
    let rk := parse_string content i1 []
    if rk.1 = false then Sum.inl m
    else
      let i2 := skip_ws content rk.2.1
      if i2 ≥ content.length ∨ char_at content i2 ≠ 58 then Sum.inl m
      else
        let i3 := skip_ws content (i2 + 1)
        let rv := parse_string content i3 []
        if rv.1 = false then Sum.inl m
        else
          let m1 := m.assign rk.2.2 rv.2.2
          let i4 := skip_ws content rv.2.1
          if i4 < content.length ∧ char_at content i4 = 44 then Sum.inr (i4 + 1, m1)
          else if i4 < content.length ∧ char_at content i4 = 125 then Sum.inl m1
          else Sum.inr (i4, m1)
  else Sum.inl m

/-- The loop `while (i < n)` of `parse_json_object_string_map` run for at most `fuel`
iterations: `none` when the loop has not been left by then. -/
def parse_pairs_run (content : Str) : Nat → Nat → UMap → Option UMap
  | 0, _, _ => none
  | fuel + 1, i, m =>
    match parse_pairs_step content i m with
    | Sum.inl r => some r
    | Sum.inr next => parse_pairs_run content fuel next.1 next.2

/-- A malformed mapping text: the comma between the two entries and the closing brace are
missing, and the last string is not terminated. -/
def sample_text_malformed : Str := bytes "\x7b\"a\":\"b\" \"c\":\"d"

/-! ## The upload handler of `main.cpp` -/

/-- The call `s.find_last_of(c)`: the highest index at which the byte `c` occurs, `none` for
`npos`. -/
def find_last_of : Str → Nat → Option Nat
  | [], _ => none
  | x :: t, c =>
    match find_last_of t c with
    | some i => some (i + 1)
    | none => if x = c then some 0 else none

/-- The function `basename_only`. -/
def basename_only (name : Str) : Str :=
  let p1 := find_last_of name 47
  let p2 := find_last_of name 92
  let pos :=
    match p1, p2 with
    | some a, some b => some (max a b)
    | _, _ => if p1 ≠ none then p1 else p2
  match pos with
  | some p => substr name (p + 1) (name.length - (p + 1))
  | none => name

/-- The end of the handler of `POST /upload`, from `filename = basename_only(filename)` on:
the call of `add_file_from_buffer` with the content and the file name that the first part of
the handler has set. -/
def upload_store (s : Storage) (o : AddOutcome) (content filename : Str) : AddResult × Storage :=
  add_file_from_buffer s o content (basename_only filename)

/-- A file name sent with directories, in both notations. -/
def sample_path_name : Str := bytes "C:\\docs/reports\\q3.txt"

/-! # Theorems -/

/-! ## Identifier shape -/

theorem in_ranges_alnum (c : Nat) :
    in_ranges [(65, 90), (97, 122), (48, 57)] c = true ↔ is_alnum c := by
  simp only [in_ranges, is_alnum, List.any_cons, List.any_nil, Bool.or_false, Bool.or_eq_true,
    decide_eq_true_eq]
  omega

theorem mem_step_cls (input : Str) (ranges : List (Nat × Nat)) (rests : List Str) (t : Str) :
    t ∈ Regex.step input (Regex.cls ranges) rests ↔
      ∃ c, c :: t ∈ rests ∧ in_ranges ranges c = true := by
  simp only [Regex.step, List.mem_filterMap]
  constructor
  · rintro ⟨r, hr, h⟩
    cases r with
    | nil => simp at h
    | cons c u =>
      by_cases hc : in_ranges ranges c = true
      · simp only [hc, if_true, Option.some.injEq] at h
        exact ⟨c, h ▸ hr, hc⟩
      · simp [hc] at h
  · rintro ⟨c, hr, hc⟩
    exact ⟨c :: t, hr, by simp [hc]⟩

theorem mem_iter_exact_cls (input : Str) (ranges : List (Nat × Nat)) (n : Nat) :
    ∀ (rests : List Str) (t : Str),
      t ∈ iter_exact (Regex.step input (Regex.cls ranges)) n rests ↔
        ∃ pre : Str, pre.length = n ∧ (∀ c ∈ pre, in_ranges ranges c = true) ∧
          pre ++ t ∈ rests := by
  induction n with
  | zero =>
    intro rests t
    simp only [iter_exact]
    constructor
    · intro h
      exact ⟨[], rfl, by simp, by simpa using h⟩
    · rintro ⟨pre, hlen, -, hmem⟩
      have : pre = [] := List.length_eq_zero.1 hlen
      simpa [this] using hmem
  | succ n ih =>
    intro rests t
    simp only [iter_exact]
    rw [ih]
    constructor
    · rintro ⟨pre, hlen, hall, hmem⟩
      obtain ⟨c, hc, hin⟩ := (mem_step_cls input ranges rests (pre ++ t)).1 hmem
      refine ⟨c :: pre, by simp [hlen], ?_, by simpa using hc⟩
      intro d hd
      rcases List.mem_cons.1 hd with rfl | hd
      · exact hin
      · exact hall d hd
    · rintro ⟨pre, hlen, hall, hmem⟩
      cases pre with
      | nil => simp at hlen
      | cons c u =>
        refine ⟨u, by simpa using hlen, fun d hd => hall d (List.mem_cons_of_mem _ hd), ?_⟩
        exact (mem_step_cls input ranges rests (u ++ t)).2
          ⟨c, by simpa using hmem, hall c (List.mem_cons_self _ _)⟩

theorem mem_iter_upto (f : List Str → List Str) (n : Nat) :
    ∀ (rests : List Str) (t : Str),
      t ∈ iter_upto f n rests ↔ ∃ k, k ≤ n ∧ t ∈ iter_exact f k rests := by
  induction n with
  | zero =>
    intro rests t
    simp only [iter_upto]
    constructor
    · intro h
      exact ⟨0, le_refl _, h⟩
    · rintro ⟨k, hk, h⟩
      have : k = 0 := by omega
      subst this
      exact h
  | succ n ih =>
    intro rests t
    simp only [iter_upto, List.mem_append, ih]
    constructor
    · rintro (h | ⟨k, hk, h⟩)
      · exact ⟨0, by omega, h⟩
      · exact ⟨k + 1, by omega, h⟩
    · rintro ⟨k, hk, h⟩
      cases k with
      | zero => exact Or.inl h
      | succ k => exact Or.inr ⟨k, by omega, h⟩

theorem step_id_regex (id : Str) :
    Regex.step id id_regex [id] =
      (iter_upto (Regex.step id (Regex.cls [(65, 90), (97, 122), (48, 57)])) 58
        (iter_exact (Regex.step id (Regex.cls [(65, 90), (97, 122), (48, 57)])) 6 [id])).filter
        (fun r => r.isEmpty) := by
  have h :
      Regex.step id id_regex [id] =
        (iter_upto (Regex.step id (Regex.cls [(65, 90), (97, 122), (48, 57)])) (64 - 6)
          (iter_exact (Regex.step id (Regex.cls [(65, 90), (97, 122), (48, 57)])) 6
            ([id].filter (fun r => decide (r.length = id.length))))).filter
          (fun r => r.isEmpty) := rfl
  rw [h]
  simp

/-- The shape that `is_valid_id` accepts. -/
theorem is_valid_id_iff_shape (id : Str) :
    is_valid_id id = true ↔ 6 ≤ id.length ∧ id.length ≤ 64 ∧ ∀ c ∈ id, is_alnum c := by
  unfold is_valid_id regex_match
  rw [step_id_regex, List.any_eq_true]
  constructor
  · rintro ⟨r, hmem, hr⟩
    have hr0 : r = [] := by simpa using hr
    subst hr0
    have hmem := (List.mem_filter.1 hmem).1
    obtain ⟨k, hk, hmem⟩ := (mem_iter_upto _ _ _ _).1 hmem
    obtain ⟨pre, hlen, hall, hmem⟩ := (mem_iter_exact_cls _ _ _ _ _).1 hmem
    obtain ⟨pre0, hlen0, hall0, hmem0⟩ := (mem_iter_exact_cls _ _ _ _ _).1 hmem
    have hid : id = pre0 ++ pre := by simpa using (List.mem_singleton.1 hmem0).symm
    subst hid
    refine ⟨by simp; omega, by simp; omega, ?_⟩
    intro c hc
    rcases List.mem_append.1 hc with h | h
    · exact (in_ranges_alnum c).1 (hall0 c h)
    · exact (in_ranges_alnum c).1 (hall c h)
  · rintro ⟨h6, h64, hall⟩
    refine ⟨[], List.mem_filter.2 ⟨?_, rfl⟩, rfl⟩
    refine (mem_iter_upto _ _ _ _).2 ⟨id.length - 6, by omega, ?_⟩
    refine (mem_iter_exact_cls id _ _ _ _).2 ⟨id.drop 6, by simp, ?_, ?_⟩
    · intro c hc
      exact (in_ranges_alnum c).2 (hall c (List.mem_of_mem_drop hc))
    · refine (mem_iter_exact_cls id _ _ _ _).2 ⟨id.take 6, by simp; omega, ?_, by simp⟩
      intro c hc
      exact (in_ranges_alnum c).2 (hall c (List.mem_of_mem_take hc))

/-- C2: `is_valid_id(id)` is true if and only if the length of `id` is between 6 and 64
inclusive and every byte of `id` is one of `0-9`, `A-Z`, `a-z`; a string with any other byte
anywhere (newline, `.`, `/`, backslash) is rejected by the full match. -/
theorem is_valid_id_full_match (id : Str) :
    is_valid_id id = true ↔
      6 ≤ id.length ∧ id.length ≤ 64 ∧
        ∀ c ∈ id, (48 ≤ c ∧ c ≤ 57) ∨ (65 ≤ c ∧ c ≤ 90) ∨ (97 ≤ c ∧ c ≤ 122) :=
  is_valid_id_iff_shape id

/-! ## Sanitizing -/

theorem sanitize_foldl (name : Str) :
    ∀ acc : Str,
      name.foldl (fun out c => if c = 34 ∨ c = 92 ∨ c < 32 then out ++ [95] else out ++ [c]) acc =
        acc ++ name.map (fun c => if c = 34 ∨ c = 92 ∨ c < 32 then 95 else c) := by
  induction name with
  | nil => intro acc; simp
  | cons c t ih =>
    intro acc
    simp only [List.foldl_cons, List.map_cons]
    rw [ih]
    by_cases h : c = 34 ∨ c = 92 ∨ c < 32
    · simp [if_pos h]
    · simp [if_neg h]

theorem sanitize_filename_eq_map (name : Str) :
    sanitize_filename name = name.map (fun c => if c = 34 ∨ c = 92 ∨ c < 32 then 95 else c) := by
  unfold sanitize_filename
  rw [sanitize_foldl]
  simp

/-- C4: `sanitize_filename(name)` has the length of `name`, and at every position its byte is
`_` when the byte of `name` there is the double quote, the backslash or below `0x20`, and is
the byte of `name` otherwise. -/
theorem sanitize_filename_pointwise (name : Str) :
    (sanitize_filename name).length = name.length ∧
      ∀ i : Nat,
        (sanitize_filename name)[i]? =
          (name[i]?).map (fun c => if c = 34 ∨ c = 92 ∨ c < 32 then 95 else c) := by
  rw [sanitize_filename_eq_map]
  exact ⟨List.length_map _ _, fun i => List.getElem?_map _ _ _⟩

theorem sanitize_filename_clean (name : Str) :
    ∀ c ∈ sanitize_filename name, c ≠ 34 ∧ c ≠ 92 ∧ 32 ≤ c := by
  rw [sanitize_filename_eq_map]
  intro c hc
  obtain ⟨d, -, rfl⟩ := List.mem_map.1 hc
  by_cases h : d = 34 ∨ d = 92 ∨ d < 32
  · simp [if_pos h]
  · rw [if_neg h]
    omega

/-! ## Generated identifiers -/

theorem kAlphabet_alnum : ∀ k : Fin 62, is_alnum (kAlphabet.getD k.val 0) := by decide

theorem generate_id_length (len : Nat) (draw : Nat → Fin 62) :
    (generate_id len draw).length = len := by
  simp [generate_id]

theorem generate_id_alnum (len : Nat) (draw : Nat → Fin 62) :
    ∀ c ∈ generate_id len draw, is_alnum c := by
  intro c hc
  obtain ⟨i, -, rfl⟩ := List.mem_map.1 hc
  exact kAlphabet_alnum (draw i)

theorem generate_id_valid (draw : Nat → Fin 62) : is_valid_id (generate_id 22 draw) = true :=
  (is_valid_id_iff_shape _).2
    ⟨by rw [generate_id_length]; omega, by rw [generate_id_length]; omega,
      generate_id_alnum 22 draw⟩

/-- The loop of `add_file_from_buffer` leaves `id` empty or set to a candidate that names no
existing entry. -/
theorem pick_id_cases (disk : FileSystem) (draw : Nat → Nat → Fin 62) (left : Nat) :
    ∀ attempt : Nat,
      pick_id disk draw left attempt = [] ∨
        ∃ a, pick_id disk draw left attempt = generate_id 22 (draw a) ∧
          fs_exists disk (generate_id 22 (draw a)) = false := by
  induction left with
  | zero => intro attempt; exact Or.inl rfl
  | succ n ih =>
    intro attempt
    simp only [pick_id]
    by_cases h : fs_exists disk (generate_id 22 (draw attempt)) = false
    · rw [if_pos h]
      exact Or.inr ⟨attempt, rfl, h⟩
    · rw [if_neg h]
      exact ih (attempt + 1)

theorem save_mapping_resources (s : Storage) (o : SaveOutcome) :
    (save_mapping s o).2.2.resources = s.disk.resources := by
  unfold save_mapping
  by_cases h1 : o.open_ok = false
  · simp [h1]
  · by_cases h2 : o.rename_ok = false
    · simp [h1, h2]
    · simp [h1, h2]

/-- What a successful `add_file_from_buffer` does. -/
theorem add_ok_shape (s : Storage) (o : AddOutcome) (buffer original_name : Str)
    (h : (add_file_from_buffer s o buffer original_name).1.ok = true) :
    ∃ a,
      fs_exists s.disk (generate_id 22 (o.draw a)) = false ∧
      (add_file_from_buffer s o buffer original_name).1.out_id =
        some (generate_id 22 (o.draw a)) ∧
      (add_file_from_buffer s o buffer original_name).2.mapping_ =
        s.mapping_.assign (generate_id 22 (o.draw a)) (sanitize_filename original_name) ∧
      (add_file_from_buffer s o buffer original_name).2.disk.resources =
        (s.disk.resources.erase (generate_id 22 (o.draw a) ++ bytes ".tmp")).assign
          (generate_id 22 (o.draw a)) (buffer.take o.written) ∧
      (add_file_from_buffer s o buffer original_name).2.cfg_ = s.cfg_ := by
  unfold add_file_from_buffer at h ⊢
  by_cases h1 : s.cfg_.max_file_size > 0 ∧ buffer.length > s.cfg_.max_file_size
  · simp [if_pos h1] at h
  · simp only [if_neg h1] at h ⊢
    rcases pick_id_cases s.disk o.draw 10 0 with hp | ⟨a, hp, hfree⟩
    · simp [hp] at h
    · have hne : (generate_id 22 (o.draw a)).isEmpty = false := by
        cases hg : generate_id 22 (o.draw a) with
        | nil =>
          have := generate_id_length 22 (o.draw a)
          rw [hg] at this
          simp at this
        | cons c t => rfl
      rw [hp] at h ⊢
      simp only [hne] at h ⊢
      by_cases h2 : o.open_ok = false
      · simp [h2] at h
      · by_cases h3 : o.rename_ok = false
        · simp [h2, h3] at h
        · simp only [if_neg h2, if_neg h3, Bool.false_eq_true, if_false]
          refine ⟨a, hfree, ?_, ?_, ?_, ?_⟩ <;>
            first
              | rfl
              | trivial
              | exact save_mapping_resources _ _

/-- C9: `generate_id(len)` returns exactly `len` bytes, each one of the 62 symbols `0-9`,
`A-Z`, `a-z`, whatever the random source draws; so it satisfies `is_valid_id` exactly when
`6 <= len <= 64`, and the id returned by a successful `add_file_from_buffer` has length 22,
is alphanumeric and satisfies `is_valid_id`. -/
theorem generate_id_shape (len : Nat) (draw : Nat → Fin 62) (s : Storage) (o : AddOutcome)
    (buffer original_name : Str) :
    (generate_id len draw).length = len ∧
      (∀ c ∈ generate_id len draw, c ∈ kAlphabet ∧ is_alnum c) ∧
      (is_valid_id (generate_id len draw) = true ↔ 6 ≤ len ∧ len ≤ 64) ∧
      ((add_file_from_buffer s o buffer original_name).1.ok = true →
        ∃ id, (add_file_from_buffer s o buffer original_name).1.out_id = some id ∧
          id.length = 22 ∧ (∀ c ∈ id, is_alnum c) ∧ is_valid_id id = true) := by
  refine ⟨generate_id_length len draw, ?_, ?_, ?_⟩
  · intro c hc
    refine ⟨?_, generate_id_alnum len draw c hc⟩
    obtain ⟨i, -, rfl⟩ := List.mem_map.1 hc
    have hlt : (draw i).val < kAlphabet.length := by
      have : kAlphabet.length = 62 := by decide
      rw [this]
      exact (draw i).isLt
    rw [List.getD_eq_getElem _ _ hlt]
    exact List.getElem_mem hlt
  · rw [is_valid_id_iff_shape, generate_id_length]
    constructor
    · rintro ⟨h1, h2, -⟩
      exact ⟨h1, h2⟩
    · rintro ⟨h1, h2⟩
      exact ⟨h1, h2, generate_id_alnum len draw⟩
  · intro h
    obtain ⟨a, -, hid, -⟩ := add_ok_shape s o buffer original_name h
    exact ⟨_, hid, generate_id_length 22 _, generate_id_alnum 22 _, generate_id_valid _⟩

/-- The sample upload succeeds, and its id has the shape that C9 states. -/
theorem generate_id_shape_witness :
    (add_file_from_buffer sample_store add_fine (bytes "hi") (bytes "hello.txt")).1.ok = true ∧
      ∃ id,
        (add_file_from_buffer sample_store add_fine (bytes "hi") (bytes "hello.txt")).1.out_id =
            some id ∧
          id.length = 22 ∧ (∀ c ∈ id, is_alnum c) ∧ is_valid_id id = true :=
  ⟨by decide,
    (generate_id_shape 22 (fun _ => 0) sample_store add_fine (bytes "hi")
      (bytes "hello.txt")).2.2.2 (by decide)⟩

/-! ## Rejected identifiers -/

theorem is_valid_id_false_of_other_byte (id : Str) (h : ∃ c ∈ id, ¬ is_alnum c) :
    is_valid_id id = false := by
  obtain ⟨c, hc, hn⟩ := h
  cases hv : is_valid_id id with
  | false => rfl
  | true => exact absurd (((is_valid_id_iff_shape id).1 hv).2.2 c hc) hn

/-- C3: an id with at least one byte outside `[A-Za-z0-9]` is answered with Not Found by the
download lookup and by `blob_path_for`, and `delete_file` fails on it with "Invalid id"; the
answers are the same in any two stores (whatever their files and mappings are), and
`delete_file` leaves the store as it was. -/
theorem invalid_id_rejected (id : Str) (h : ∃ c ∈ id, ¬ is_alnum c) (s s2 : Storage)
    (o o2 : DeleteOutcome) :
    is_valid_id id = false ∧
      download s id = none ∧ blob_path_for s id = none ∧
      delete_file s o id = (false, some ErrMsg.invalid_id, s) ∧
      download s id = download s2 id ∧ blob_path_for s id = blob_path_for s2 id ∧
      (delete_file s o id).1 = (delete_file s2 o2 id).1 ∧
      (delete_file s o id).2.1 = (delete_file s2 o2 id).2.1 := by
  have hv := is_valid_id_false_of_other_byte id h
  simp [download, blob_path_for, delete_file, hv]

/-- The ids `../secret`, `a/b` and `../etc/passwd` are rejected, in a store that holds a file
as in an empty one. -/
theorem invalid_id_rejected_witness :
    (∃ c ∈ bytes "../secret", ¬ is_alnum c) ∧
      download sample_store_hi (bytes "../secret") = none ∧
      blob_path_for sample_store_hi (bytes "../secret") = none ∧
      delete_file sample_store_hi del_fine (bytes "../secret") =
        (false, some ErrMsg.invalid_id, sample_store_hi) ∧
      download sample_store_hi (bytes "a/b") = download sample_store (bytes "a/b") ∧
      blob_path_for sample_store_hi (bytes "../etc/passwd") = none :=
  have h1 := invalid_id_rejected (bytes "../secret") ⟨46, by decide, by decide⟩
    sample_store_hi sample_store del_fine del_fine
  have h2 := invalid_id_rejected (bytes "a/b") ⟨47, by decide, by decide⟩
    sample_store_hi sample_store del_fine del_fine
  have h3 := invalid_id_rejected (bytes "../etc/passwd") ⟨46, by decide, by decide⟩
    sample_store_hi sample_store del_fine del_fine
  ⟨⟨46, by decide, by decide⟩, h1.2.1, h1.2.2.1, h1.2.2.2.1, h2.2.2.2.2.1, h3.2.2.1⟩

/-! ## The size limit -/

/-- C5: with a size limit set, content longer than the limit makes `add_file_from_buffer` fail
with "File exceeds size limit" and leaves the whole store (the mapping, every entry of the
resources directory, the mapping file and its temporary file) as it was, so `list()` is
unchanged; content whose length equals the limit does not get this error. -/
theorem size_limit_no_trace (s : Storage) (o : AddOutcome) (buffer original_name : Str) :
    (s.cfg_.max_file_size > 0 → buffer.length > s.cfg_.max_file_size →
        add_file_from_buffer s o buffer original_name =
            (⟨false, none, some ErrMsg.size_limit⟩, s) ∧
          list (add_file_from_buffer s o buffer original_name).2 = list s) ∧
      (buffer.length = s.cfg_.max_file_size →
        (add_file_from_buffer s o buffer original_name).1.err ≠ some ErrMsg.size_limit) := by
  constructor
  · intro h1 h2
    have h : add_file_from_buffer s o buffer original_name =
        (⟨false, none, some ErrMsg.size_limit⟩, s) := by
      unfold add_file_from_buffer
      rw [if_pos ⟨h1, h2⟩]
    rw [h]
    exact ⟨rfl, rfl⟩
  · intro h
    unfold add_file_from_buffer
    have hn : ¬ (s.cfg_.max_file_size > 0 ∧ buffer.length > s.cfg_.max_file_size) := by omega
    rw [if_neg hn]
    simp only
    split
    · simp
    · split
      · simp
      · split
        · simp
        · split <;> simp

/-- Two bytes against a limit of one byte are rejected without a trace, and one byte against
the same limit is not rejected by the size check. -/
theorem size_limit_no_trace_witness :
    (sample_store_limit.cfg_.max_file_size > 0 ∧
        (bytes "hi").length > sample_store_limit.cfg_.max_file_size ∧
        add_file_from_buffer sample_store_limit add_fine (bytes "hi") (bytes "x") =
          (⟨false, none, some ErrMsg.size_limit⟩, sample_store_limit) ∧
        list (add_file_from_buffer sample_store_limit add_fine (bytes "hi") (bytes "x")).2 =
          list sample_store_limit) ∧
      ((bytes "h").length = sample_store_limit.cfg_.max_file_size ∧
        (add_file_from_buffer sample_store_limit add_fine (bytes "h") (bytes "x")).1.err ≠
          some ErrMsg.size_limit) :=
  ⟨⟨by decide, by decide,
      (size_limit_no_trace sample_store_limit add_fine (bytes "hi") (bytes "x")).1
        (by decide) (by decide)⟩,
    ⟨by decide,
      (size_limit_no_trace sample_store_limit add_fine (bytes "h") (bytes "x")).2 (by decide)⟩⟩

/-! ## Maps -/

theorem assoc_find_eq_none_iff (k : Str) (l : List (Str × Str)) :
    assoc_find k l = none ↔ ∀ e ∈ l, e.1 ≠ k := by
  induction l with
  | nil => simp [assoc_find]
  | cons e t ih =>
    by_cases h : e.1 = k
    · simp [assoc_find, h]
    · simp [assoc_find, h, ih]

theorem assoc_erase_no_key (k : Str) (l : List (Str × Str)) :
    ∀ e ∈ assoc_erase k l, e.1 ≠ k := by
  intro e he
  have := (List.mem_filter.1 he).2
  simpa using this

theorem find_erase_self (m : UMap) (k : Str) : (m.erase k).find k = none :=
  (assoc_find_eq_none_iff k _).2 (assoc_erase_no_key k m.entries)

theorem find_assign_self (m : UMap) (k v : Str) : (m.assign k v).find k = some v := by
  simp [UMap.find, UMap.assign, assoc_find]

theorem std_sort_perm {α : Type} (comp : α → α → Bool) (v : List α) :
    (std_sort comp v).Perm v :=
  List.perm_insertionSort _ v

theorem mem_list_iff (s : Storage) (e : Str × Str) : e ∈ list s ↔ e ∈ s.mapping_.entries :=
  (std_sort_perm list_comp s.mapping_.entries).mem_iff

/-! ## Deleting -/

/-- What a successful `delete_file` does. -/
theorem delete_ok_shape (s : Storage) (o : DeleteOutcome) (id : Str)
    (h : (delete_file s o id).1 = true) :
    is_valid_id id = true ∧ fs_exists s.disk id = true ∧
      (delete_file s o id).2.2.mapping_ = s.mapping_.erase id ∧
      (delete_file s o id).2.2.disk.resources = s.disk.resources.erase id ∧
      (delete_file s o id).2.2.cfg_ = s.cfg_ := by
  unfold delete_file at h ⊢
  by_cases h1 : is_valid_id id = false
  · simp [h1] at h
  · by_cases h2 : fs_exists s.disk id = false
    · simp [h1, h2] at h
    · by_cases h3 : o.remove_ok = false
      · simp [h1, h2, h3] at h
      · simp only [if_neg h1, if_neg h2, if_neg h3]
        refine ⟨by simpa using h1, by simpa using h2, ?_, ?_, ?_⟩ <;>
          first
            | rfl
            | trivial
            | exact save_mapping_resources _ _

/-- C6: after `delete_file(id)` returned success, `list()` has no entry with that id,
`get_original_name(id)` fails, no file `id` exists under `resources_dir`, `blob_path_for(id)` is
absent and the download lookup answers Not Found. -/
theorem delete_complete (s : Storage) (o : DeleteOutcome) (id : Str)
    (h : (delete_file s o id).1 = true) :
    (∀ e ∈ list (delete_file s o id).2.2, e.1 ≠ id) ∧
      get_original_name (delete_file s o id).2.2 id = none ∧
      fs_exists (delete_file s o id).2.2.disk id = false ∧
      blob_path_for (delete_file s o id).2.2 id = none ∧
      download (delete_file s o id).2.2 id = none := by
  obtain ⟨-, -, hm, hr, -⟩ := delete_ok_shape s o id h
  have hname : get_original_name (delete_file s o id).2.2 id = none := by
    unfold get_original_name
    rw [hm]
    exact find_erase_self _ _
  have hfile : fs_exists (delete_file s o id).2.2.disk id = false := by
    unfold fs_exists
    rw [hr, find_erase_self]
    rfl
  refine ⟨?_, hname, hfile, ?_, ?_⟩
  · intro e he
    have he2 := (mem_list_iff _ e).1 he
    rw [hm] at he2
    exact assoc_erase_no_key id _ e he2
  · unfold blob_path_for
    rw [hfile]
    simp
  · unfold download
    rw [hname]
    simp

/-- Deleting the sample upload succeeds and leaves nothing of it behind. -/
theorem delete_complete_witness :
    (delete_file sample_store_hi del_fine sample_id).1 = true ∧
      (∀ e ∈ list (delete_file sample_store_hi del_fine sample_id).2.2, e.1 ≠ sample_id) ∧
      get_original_name (delete_file sample_store_hi del_fine sample_id).2.2 sample_id = none ∧
      fs_exists (delete_file sample_store_hi del_fine sample_id).2.2.disk sample_id = false ∧
      blob_path_for (delete_file sample_store_hi del_fine sample_id).2.2 sample_id = none ∧
      download (delete_file sample_store_hi del_fine sample_id).2.2 sample_id = none :=
  ⟨by decide, delete_complete sample_store_hi del_fine sample_id (by decide)⟩

/-! ## Adding, then getting -/

/-- When the stream stored the whole buffer, a successful `add_file_from_buffer` is followed by
a successful lookup that returns the sanitized name and the bytes of the buffer. -/
theorem add_then_get_of_complete_write (s : Storage) (o : AddOutcome)
    (buffer original_name : Str)
    (hok : (add_file_from_buffer s o buffer original_name).1.ok = true)
    (hw : buffer.length ≤ o.written) :
    ∃ id,
      (add_file_from_buffer s o buffer original_name).1.out_id = some id ∧
      is_valid_id id = true ∧
      get_original_name (add_file_from_buffer s o buffer original_name).2 id =
        some (sanitize_filename original_name) ∧
      blob_path_for (add_file_from_buffer s o buffer original_name).2 id =
        some ⟨s.cfg_.resources_dir, id⟩ ∧
      read_file (add_file_from_buffer s o buffer original_name).2.disk
        ⟨s.cfg_.resources_dir, id⟩ = buffer ∧
      download (add_file_from_buffer s o buffer original_name).2 id =
        some (⟨s.cfg_.resources_dir, id⟩, sanitize_filename original_name, buffer) := by
  obtain ⟨a, -, hid, hm, hr, hc⟩ := add_ok_shape s o buffer original_name hok
  have hv := generate_id_valid (o.draw a)
  have hname : get_original_name (add_file_from_buffer s o buffer original_name).2
      (generate_id 22 (o.draw a)) = some (sanitize_filename original_name) := by
    unfold get_original_name
    rw [hm]
    exact find_assign_self _ _ _
  have hfind : (add_file_from_buffer s o buffer original_name).2.disk.resources.find
      (generate_id 22 (o.draw a)) = some buffer := by
    rw [hr, find_assign_self, List.take_of_length_le hw]
  have hpath : blob_path_for (add_file_from_buffer s o buffer original_name).2
      (generate_id 22 (o.draw a)) = some ⟨s.cfg_.resources_dir, generate_id 22 (o.draw a)⟩ := by
    unfold blob_path_for fs_exists
    rw [hfind, hv, hc]
    simp
  have hread : read_file (add_file_from_buffer s o buffer original_name).2.disk
      ⟨s.cfg_.resources_dir, generate_id 22 (o.draw a)⟩ = buffer := by
    unfold read_file
    rw [hfind]
    rfl
  refine ⟨_, hid, hv, hname, hpath, hread, ?_⟩
  unfold download
  rw [hv, hname, hpath]
  simp [hread]

/-- C1, at a failing run: the device is full, so the stream stores none of the two bytes of
`"hi"`; `add_file_from_buffer` does not look at the state of the stream after `write`, renames
the empty temporary file, records the entry and returns success, and the download that follows
sends an empty body instead of `"hi"`. -/
theorem add_reports_success_after_short_write :
    (add_file_from_buffer sample_store add_disk_full (bytes "hi") (bytes "hello.txt")).1 =
        ⟨true, some sample_id, none⟩ ∧
      download
          (add_file_from_buffer sample_store add_disk_full (bytes "hi") (bytes "hello.txt")).2
          sample_id =
        some (⟨bytes "resources", sample_id⟩, bytes "hello.txt", []) ∧
      ([] : Str) ≠ bytes "hi" := by
  decide

/-! ## The order of the listing -/

theorem str_lt_irrefl : ∀ a : Str, str_lt a a = false
  | [] => rfl
  | a :: as => by simp [str_lt, str_lt_irrefl as]

theorem str_lt_asymm : ∀ a b : Str, str_lt a b = true → str_lt b a = false
  | [], [], h => by simp [str_lt] at h
  | [], _ :: _, _ => rfl
  | _ :: _, [], h => by simp [str_lt] at h
  | a :: as, b :: bs, h => by
    simp only [str_lt] at h ⊢
    by_cases h1 : a < b
    · have h2 : ¬ b < a := by omega
      simp [h2, h1]
    · by_cases h2 : b < a
      · simp [h1, h2] at h
      · simp only [h1, h2, if_false] at h ⊢
        exact str_lt_asymm as bs h

theorem str_lt_connex : ∀ a b : Str, a ≠ b → str_lt a b = false → str_lt b a = true
  | [], [], h, _ => absurd rfl h
  | [], _ :: _, _, h => by simp [str_lt] at h
  | _ :: _, [], _, _ => rfl
  | a :: as, b :: bs, hne, h => by
    simp only [str_lt] at h ⊢
    by_cases h1 : a < b
    · simp [h1] at h
    · by_cases h2 : b < a
      · simp [h2]
      · simp only [h1, h2, if_false] at h ⊢
        have hab : a = b := by omega
        subst hab
        exact str_lt_connex as bs (fun e => hne (by rw [e])) h

theorem str_lt_trans : ∀ a b c : Str, str_lt a b = true → str_lt b c = true → str_lt a c = true
  | [], [], _, h1, _ => by simp [str_lt] at h1
  | [], _ :: _, [], _, h2 => by simp [str_lt] at h2
  | [], _ :: _, _ :: _, _, _ => rfl
  | _ :: _, [], _, h1, _ => by simp [str_lt] at h1
  | _ :: _, _ :: _, [], _, h2 => by simp [str_lt] at h2
  | a :: as, b :: bs, c :: cs, h1, h2 => by
    simp only [str_lt] at h1 h2 ⊢
    by_cases hab : a < b
    · by_cases hbc : b < c
      · have : a < c := by omega
        simp [this]
      · by_cases hcb : c < b
        · simp [hbc, hcb] at h2
        · have : a < c := by omega
          simp [this]
    · by_cases hba : b < a
      · simp [hab, hba] at h1
      · simp only [hab, hba, if_false] at h1
        have e : a = b := by omega
        subst e
        by_cases hbc : a < c
        · simp [hbc]
        · by_cases hcb : c < a
          · simp [hbc, hcb] at h2
          · simp only [hbc, hcb, if_false] at h2 ⊢
            exact str_lt_trans as bs cs h1 h2

/-- The comparison of two strings is the lexicographic order over their bytes. -/
theorem str_lt_iff_lex : ∀ a b : Str, str_lt a b = true ↔ List.Lex (fun x y : Nat => x < y) a b
  | [], [] => by
    simp only [str_lt]
    constructor
    · intro h; cases h
    · intro h; cases h
  | [], _ :: _ => by
    simp only [str_lt]
    exact ⟨fun _ => List.Lex.nil, fun _ => trivial⟩
  | _ :: _, [] => by
    simp only [str_lt]
    constructor
    · intro h; cases h
    · intro h; cases h
  | a :: as, b :: bs => by
    simp only [str_lt]
    by_cases h1 : a < b
    · simp only [h1, if_true]
      exact ⟨fun _ => List.Lex.rel h1, fun _ => trivial⟩
    · by_cases h2 : b < a
      · simp only [h1, h2, if_true, if_false]
        constructor
        · intro h; cases h
        · intro h
          cases h with
          | cons h => omega
          | rel h => omega
      · simp only [h1, h2, if_false]
        have e : a = b := by omega
        subst e
        rw [str_lt_iff_lex as bs]
        constructor
        · intro h; exact List.Lex.cons h
        · intro h
          cases h with
          | cons h => exact h
          | rel h => omega

theorem std_sort_list_comp_sorted (v : List (Str × Str)) :
    (std_sort list_comp v).Pairwise (fun a b => list_comp b a = false) := by
  haveI : IsTotal (Str × Str) (fun a b => list_comp b a = false) :=
    ⟨fun a b => by
      unfold list_comp
      cases h : str_lt b.1 a.1 with
      | false => exact Or.inl rfl
      | true => exact Or.inr (str_lt_asymm _ _ h)⟩
  haveI : IsTrans (Str × Str) (fun a b => list_comp b a = false) :=
    ⟨fun a b c hab hbc => by
      unfold list_comp at hab hbc ⊢
      cases h : str_lt c.1 a.1 with
      | false => rfl
      | true =>
        by_cases e : a.1 = b.1
        · rw [e] at h
          rw [h] at hbc
          cases hbc
        · have hlt := str_lt_connex b.1 a.1 (fun x => e x.symm) hab
          have := str_lt_trans c.1 a.1 b.1 h hlt
          rw [this] at hbc
          cases hbc⟩
  exact List.sorted_insertionSort (fun a b : Str × Str => list_comp b a = false) v

/-- The listing is strictly ascending by key. -/
theorem list_strictly_ascending (s : Storage) :
    (list s).Pairwise (fun a b => str_lt a.1 b.1 = true) := by
  have hs := std_sort_list_comp_sorted s.mapping_.entries
  have hperm := std_sort_perm list_comp s.mapping_.entries
  have hnd : ((list s).map Prod.fst).Nodup :=
    (List.Perm.nodup_iff (hperm.map Prod.fst)).2 s.mapping_.nodup
  have hne : (list s).Pairwise (fun a b => a.1 ≠ b.1) := by
    have := List.pairwise_map.1 hnd
    exact this
  have hboth := List.Pairwise.and hs hne
  refine List.Pairwise.imp ?_ hboth
  intro a b hab
  exact str_lt_connex b.1 a.1 (fun e => hab.2 e.symm) hab.1

/-- Two stores with the same entries list them alike. -/
theorem list_eq_of_perm (s s2 : Storage) (h : s2.mapping_.entries.Perm s.mapping_.entries) :
    list s2 = list s := by
  haveI : IsAntisymm (Str × Str) (fun a b => str_lt a.1 b.1 = true) :=
    ⟨fun a b hab hba => by
      have := str_lt_asymm _ _ hab
      rw [this] at hba
      cases hba⟩
  have hp : (list s2).Perm (list s) :=
    ((std_sort_perm _ _).trans h).trans (std_sort_perm _ _).symm
  exact List.eq_of_perm_of_sorted hp (list_strictly_ascending s2) (list_strictly_ascending s)

/-- C7: `list()` is strictly ascending by id in the lexicographic order over the bytes, holds
exactly the entries of the mapping, each once, and is the same for every iteration order of
the same entries. -/
theorem list_sorted_exact (s s2 : Storage) (h : s2.mapping_.entries.Perm s.mapping_.entries) :
    (list s).Pairwise (fun a b => List.Lex (fun x y : Nat => x < y) a.1 b.1) ∧
      (list s).Perm s.mapping_.entries ∧
      list s2 = list s := by
  refine ⟨?_, std_sort_perm _ _, ?_⟩
  · exact List.Pairwise.imp (fun hab => (str_lt_iff_lex _ _).1 hab) (list_strictly_ascending s)
  · exact list_eq_of_perm s s2 h

/-- Two stores that hold the same two entries in opposite iteration orders list them alike. -/
theorem list_sorted_exact_witness :
    sample_store_ba.mapping_.entries.Perm sample_store_ab.mapping_.entries ∧
      (list sample_store_ab).Pairwise (fun a b => List.Lex (fun x y : Nat => x < y) a.1 b.1) ∧
      (list sample_store_ab).Perm sample_store_ab.mapping_.entries ∧
      list sample_store_ba = list sample_store_ab :=
  ⟨List.Perm.swap _ _ _, list_sorted_exact sample_store_ab sample_store_ba (List.Perm.swap _ _ _)⟩

/-! ## Reading back what was written -/

theorem char_at_append (pre : Str) (c : Nat) (rest : Str) :
    char_at (pre ++ c :: rest) pre.length = c := by
  unfold char_at
  rw [List.getD_eq_getElem?_getD, List.getElem?_append_right (le_refl _)]
  simp

theorem skip_ws_stop (pre : Str) (c : Nat) (rest : Str) (h : isspace c = false) :
    skip_ws (pre ++ c :: rest) pre.length = pre.length := by
  unfold skip_ws
  cases hf : (pre ++ c :: rest).length - pre.length with
  | zero => rfl
  | succ f =>
    simp only [skip_ws_loop]
    rw [char_at_append, h]
    simp

theorem json_escape_foldl (s : Str) (hs : json_plain s) :
    ∀ acc : Str,
      s.foldl (fun out c =>
        if c = 34 then out ++ [92, 34]
        else if c = 92 then out ++ [92, 92]
        else if c = 8 then out ++ [92, 98]
        else if c = 12 then out ++ [92, 102]
        else if c = 10 then out ++ [92, 110]
        else if c = 13 then out ++ [92, 114]
        else if c = 9 then out ++ [92, 116]
        else if c < 32 then out ++ [95]
        else out ++ [c]) acc = acc ++ s := by
  induction s with
  | nil => intro acc; simp
  | cons c t ih =>
    intro acc
    have hc := hs c (List.mem_cons_self _ _)
    have ht : json_plain t := fun d hd => hs d (List.mem_cons_of_mem _ hd)
    simp only [List.foldl_cons]
    have h1 : ¬ c = 34 := hc.1
    have h2 : ¬ c = 92 := hc.2.1
    have h3 : ¬ c = 8 := by omega
    have h4 : ¬ c = 12 := by omega
    have h5 : ¬ c = 10 := by omega
    have h6 : ¬ c = 13 := by omega
    have h7 : ¬ c = 9 := by omega
    have h8 : ¬ c < 32 := by omega
    rw [if_neg h1, if_neg h2, if_neg h3, if_neg h4, if_neg h5, if_neg h6, if_neg h7, if_neg h8,
      ih ht]
    simp

/-- The function `json_escape` leaves a plain string as it is. -/
theorem json_escape_plain (s : Str) (hs : json_plain s) : json_escape s = s := by
  unfold json_escape
  rw [json_escape_foldl s hs]
  simp

theorem to_json_entries_tail (l : List (Str × Str)) :
    ∀ out : Str, (to_json_entries l (out, false)).1 = out ++ tail_text l := by
  induction l with
  | nil => intro out; simp [to_json_entries, tail_text]
  | cons kv rest ih =>
    intro out
    simp only [to_json_entries]
    rw [ih]
    simp [tail_text, pair_text]

theorem to_json_entries_eq (l : List (Str × Str)) (out : Str) :
    (to_json_entries l (out, true)).1 = out ++ pairs_text l := by
  cases l with
  | nil => simp [to_json_entries, pairs_text]
  | cons kv rest =>
    simp only [to_json_entries]
    rw [to_json_entries_tail]
    simp [pairs_text, pair_text]

/-- The text that `to_json_object_string_map` produces. -/
theorem to_json_eq (m : UMap) :
    to_json_object_string_map m = 123 :: (pairs_text m.entries ++ [125]) := by
  unfold to_json_object_string_map
  rw [to_json_entries_eq m.entries [123]]
  simp

theorem parse_string_loop_plain (body : Str) :
    ∀ (pre rest acc : Str) (fuel : Nat), (∀ c ∈ body, c ≠ 34 ∧ c ≠ 92) →
      body.length < fuel →
      parse_string_loop (pre ++ (body ++ 34 :: rest)) fuel pre.length acc =
        (true, pre.length + body.length + 1, acc ++ body) := by
  induction body with
  | nil =>
    intro pre rest acc fuel _ hf
    cases fuel with
    | zero => omega
    | succ f =>
      simp only [List.nil_append, parse_string_loop, char_at_append]
      simp
  | cons c t ih =>
    intro pre rest acc fuel hb hf
    cases fuel with
    | zero => omega
    | succ f =>
      have hc := hb c (List.mem_cons_self _ _)
      have ht : ∀ d ∈ t, d ≠ 34 ∧ d ≠ 92 := fun d hd => hb d (List.mem_cons_of_mem _ hd)
      have hlt : pre.length < (pre ++ (c :: t ++ 34 :: rest)).length := by simp
      have hshape : pre ++ (c :: t ++ 34 :: rest) = (pre ++ [c]) ++ (t ++ 34 :: rest) := by simp
      have hnext := ih (pre ++ [c]) rest (acc ++ [c]) f ht (by simpa using hf)
      rw [← hshape] at hnext
      simp only [parse_string_loop, if_pos hlt]
      have hch : char_at (pre ++ (c :: t ++ 34 :: rest)) pre.length = c := by
        have := char_at_append pre c (t ++ 34 :: rest)
        simpa using this
      rw [hch]
      have h1 : ¬ c = 34 := hc.1
      have h2 : ¬ (c = 92 ∧ pre.length + 1 < (pre ++ (c :: t ++ 34 :: rest)).length) :=
        fun h => hc.2 h.1
      rw [if_neg h1, if_neg h2]
      have hl : (pre ++ [c]).length = pre.length + 1 := by simp
      rw [hl] at hnext
      rw [hnext]
      simp; omega

/-- The lambda `parse_string` reads a quoted plain string. -/
theorem parse_string_quoted (pre body rest out : Str) (hb : ∀ c ∈ body, c ≠ 34 ∧ c ≠ 92) :
    parse_string (pre ++ 34 :: (body ++ 34 :: rest)) pre.length out =
      (true, pre.length + body.length + 2, body) := by
  unfold parse_string
  have hlt : ¬ (pre.length ≥ (pre ++ 34 :: (body ++ 34 :: rest)).length ∨
      char_at (pre ++ 34 :: (body ++ 34 :: rest)) pre.length ≠ 34) := by
    rw [char_at_append]
    simp
  rw [if_neg hlt]
  have hshape : pre ++ 34 :: (body ++ 34 :: rest) = (pre ++ [34]) ++ (body ++ 34 :: rest) := by
    simp
  have hl : (pre ++ [34]).length = pre.length + 1 := by simp
  have := parse_string_loop_plain body (pre ++ [34]) rest []
    ((pre ++ 34 :: (body ++ 34 :: rest)).length - (pre.length + 1)) hb (by simp; omega)
  rw [← hshape, hl] at this
  rw [this]
  simp; omega

theorem pair_text_plain (kv : Str × Str) (hk : json_plain kv.1) (hv : json_plain kv.2) :
    pair_text kv = 34 :: (kv.1 ++ 34 :: 58 :: 34 :: (kv.2 ++ [34])) := by
  unfold pair_text
  rw [json_escape_plain _ hk, json_escape_plain _ hv]
  simp

/-- One round of the main loop of `parse_json_object_string_map` over a written entry. -/
theorem parse_pairs_loop_step (pre k v tail : Str) (m0 : UMap) (f : Nat)
    (hk : json_plain k) (hv : json_plain v) :
    (∀ post, tail = 125 :: post →
      parse_pairs_loop (pre ++ 34 :: (k ++ 34 :: 58 :: 34 :: (v ++ 34 :: tail))) (f + 1)
        pre.length m0 = m0.assign k v) ∧
    (∀ post, tail = 44 :: post →
      parse_pairs_loop (pre ++ 34 :: (k ++ 34 :: 58 :: 34 :: (v ++ 34 :: tail))) (f + 1)
        pre.length m0 =
      parse_pairs_loop (pre ++ 34 :: (k ++ 34 :: 58 :: 34 :: (v ++ 34 :: tail))) f
        ((pre ++ 34 :: (k ++ 34 :: 58 :: 34 :: (v ++ [34]))).length + 1) (m0.assign k v)) := by
  generalize hcontent : pre ++ 34 :: (k ++ 34 :: 58 :: 34 :: (v ++ 34 :: tail)) = content
  have hk2 : ∀ c ∈ k, c ≠ 34 ∧ c ≠ 92 := fun c hc => ⟨(hk c hc).1, (hk c hc).2.1⟩
  have hv2 : ∀ c ∈ v, c ≠ 34 ∧ c ≠ 92 := fun c hc => ⟨(hv c hc).1, (hv c hc).2.1⟩
  have F1 : content = (pre ++ 34 :: (k ++ [34])) ++ 58 :: 34 :: (v ++ 34 :: tail) := by
    rw [← hcontent]; simp
  have F2 : content = (pre ++ 34 :: (k ++ [34]) ++ [58]) ++ 34 :: (v ++ 34 :: tail) := by
    rw [← hcontent]; simp
  have F3 : content = (pre ++ 34 :: (k ++ 34 :: 58 :: 34 :: (v ++ [34]))) ++ tail := by
    rw [← hcontent]; simp
  have hl1 : (pre ++ 34 :: (k ++ [34])).length = pre.length + k.length + 2 := by
    simp; omega
  have hl2 : (pre ++ 34 :: (k ++ [34]) ++ [58]).length = pre.length + k.length + 2 + 1 := by
    simp; omega
  have hl3 : (pre ++ 34 :: (k ++ 34 :: 58 :: 34 :: (v ++ [34]))).length =
      pre.length + k.length + 2 + 1 + v.length + 2 := by
    simp; omega
  have h_lt : pre.length < content.length := by
    rw [← hcontent]; simp
  have h_sk0 : skip_ws content pre.length = pre.length := by
    have := skip_ws_stop pre 34 (k ++ 34 :: 58 :: 34 :: (v ++ 34 :: tail)) (by decide)
    rwa [hcontent] at this
  have h_ps1 : parse_string content pre.length [] = (true, pre.length + k.length + 2, k) := by
    have := parse_string_quoted pre k (58 :: 34 :: (v ++ 34 :: tail)) [] hk2
    rwa [hcontent] at this
  have h_sk1 : skip_ws content (pre.length + k.length + 2) = pre.length + k.length + 2 := by
    have := skip_ws_stop (pre ++ 34 :: (k ++ [34])) 58 (34 :: (v ++ 34 :: tail)) (by decide)
    rwa [← F1, hl1] at this
  have h_c1 : char_at content (pre.length + k.length + 2) = 58 := by
    have := char_at_append (pre ++ 34 :: (k ++ [34])) 58 (34 :: (v ++ 34 :: tail))
    rwa [← F1, hl1] at this
  have h_lt1 : pre.length + k.length + 2 < content.length := by
    rw [← hcontent]; simp; omega
  have h_sk2 : skip_ws content (pre.length + k.length + 2 + 1) = pre.length + k.length + 2 + 1 := by
    have := skip_ws_stop (pre ++ 34 :: (k ++ [34]) ++ [58]) 34 (v ++ 34 :: tail) (by decide)
    rwa [← F2, hl2] at this
  have h_ps2 : parse_string content (pre.length + k.length + 2 + 1) [] =
      (true, pre.length + k.length + 2 + 1 + v.length + 2, v) := by
    have := parse_string_quoted (pre ++ 34 :: (k ++ [34]) ++ [58]) v tail [] hv2
    rwa [← F2, hl2] at this
  constructor
  · intro post ht
    subst ht
    have h_sk3 : skip_ws content (pre.length + k.length + 2 + 1 + v.length + 2) =
        pre.length + k.length + 2 + 1 + v.length + 2 := by
      have := skip_ws_stop (pre ++ 34 :: (k ++ 34 :: 58 :: 34 :: (v ++ [34]))) 125 post
        (by decide)
      rwa [← F3, hl3] at this
    have h_c3 : char_at content (pre.length + k.length + 2 + 1 + v.length + 2) = 125 := by
      have := char_at_append (pre ++ 34 :: (k ++ 34 :: 58 :: 34 :: (v ++ [34]))) 125 post
      rwa [← F3, hl3] at this
    have h_lt3 : pre.length + k.length + 2 + 1 + v.length + 2 < content.length := by
      rw [← hcontent]; simp; omega
    rw [parse_pairs_loop]
    simp [h_lt, h_sk0, h_ps1, h_sk1, h_c1, h_lt1, h_sk2, h_ps2, h_sk3, h_c3, h_lt3]
  · intro post ht
    subst ht
    have h_sk3 : skip_ws content (pre.length + k.length + 2 + 1 + v.length + 2) =
        pre.length + k.length + 2 + 1 + v.length + 2 := by
      have := skip_ws_stop (pre ++ 34 :: (k ++ 34 :: 58 :: 34 :: (v ++ [34]))) 44 post
        (by decide)
      rwa [← F3, hl3] at this
    have h_c3 : char_at content (pre.length + k.length + 2 + 1 + v.length + 2) = 44 := by
      have := char_at_append (pre ++ 34 :: (k ++ 34 :: 58 :: 34 :: (v ++ [34]))) 44 post
      rwa [← F3, hl3] at this
    have h_lt3 : pre.length + k.length + 2 + 1 + v.length + 2 < content.length := by
      rw [← hcontent]; simp; omega
    rw [hl3]
    conv => lhs; rw [parse_pairs_loop]
    simp [h_lt, h_sk0, h_ps1, h_sk1, h_c1, h_lt1, h_sk2, h_ps2, h_sk3, h_c3, h_lt3]

theorem tail_text_length (l : List (Str × Str)) : l.length ≤ (tail_text l).length := by
  induction l with
  | nil => simp [tail_text]
  | cons kv rest ih =>
    simp only [tail_text, List.length_cons, List.length_append]
    omega

/-- The main loop of `parse_json_object_string_map` reads back the entries that
`to_json_object_string_map` wrote, when their strings are plain. -/
theorem parse_pairs_loop_written (rest : List (Str × Str)) :
    ∀ (kv : Str × Str) (pre post : Str) (m0 : UMap) (fuel : Nat),
      json_plain kv.1 → json_plain kv.2 →
      (∀ e ∈ rest, json_plain e.1 ∧ json_plain e.2) →
      rest.length < fuel →
      parse_pairs_loop (pre ++ (pair_text kv ++ (tail_text rest ++ 125 :: post))) fuel
        pre.length m0 = assign_all (m0.assign kv.1 kv.2) rest := by
  induction rest with
  | nil =>
    intro kv pre post m0 fuel hk hv _ hf
    cases fuel with
    | zero => omega
    | succ f =>
      have hshape : pre ++ (pair_text kv ++ (tail_text [] ++ 125 :: post)) =
          pre ++ 34 :: (kv.1 ++ 34 :: 58 :: 34 :: (kv.2 ++ 34 :: 125 :: post)) := by
        rw [pair_text_plain kv hk hv]
        simp [tail_text]
      rw [hshape]
      exact (parse_pairs_loop_step pre kv.1 kv.2 (125 :: post) m0 f hk hv).1 post rfl
  | cons kv2 rest2 ih =>
    intro kv pre post m0 fuel hk hv hrest hf
    cases fuel with
    | zero => omega
    | succ f =>
      have h2 := hrest kv2 (List.mem_cons_self _ _)
      have hrest2 : ∀ e ∈ rest2, json_plain e.1 ∧ json_plain e.2 :=
        fun e he => hrest e (List.mem_cons_of_mem _ he)
      have hshape : pre ++ (pair_text kv ++ (tail_text (kv2 :: rest2) ++ 125 :: post)) =
          pre ++ 34 :: (kv.1 ++ 34 :: 58 :: 34 :: (kv.2 ++ 34 ::
            44 :: (pair_text kv2 ++ (tail_text rest2 ++ 125 :: post)))) := by
        rw [pair_text_plain kv hk hv]
        simp [tail_text]
      have hnext : pre ++ (pair_text kv ++ (tail_text (kv2 :: rest2) ++ 125 :: post)) =
          (pre ++ 34 :: (kv.1 ++ 34 :: 58 :: 34 :: (kv.2 ++ [34])) ++ [44]) ++
            (pair_text kv2 ++ (tail_text rest2 ++ 125 :: post)) := by
        rw [hshape]
        simp
      have hlen : (pre ++ 34 :: (kv.1 ++ 34 :: 58 :: 34 :: (kv.2 ++ [34])) ++ [44]).length =
          (pre ++ 34 :: (kv.1 ++ 34 :: 58 :: 34 :: (kv.2 ++ [34]))).length + 1 := by
        rw [List.length_append, List.length_singleton]
      have hstep := (parse_pairs_loop_step pre kv.1 kv.2
        (44 :: (pair_text kv2 ++ (tail_text rest2 ++ 125 :: post))) m0 f hk hv).2 _ rfl
      rw [← hshape] at hstep
      rw [hstep, ← hlen]
      have hih := ih kv2 (pre ++ 34 :: (kv.1 ++ 34 :: 58 :: 34 :: (kv.2 ++ [34])) ++ [44]) post
        (m0.assign kv.1 kv.2) f h2.1 h2.2 hrest2 (by simpa using hf)
      rw [← hnext] at hih
      rw [hih]
      rfl

/-- Reading back the text written for a map whose strings are plain assigns its entries in
iteration order to the empty map. -/
theorem parse_to_json_plain (m : UMap) (h : ∀ e ∈ m.entries, json_plain e.1 ∧ json_plain e.2) :
    parse_json_object_string_map (to_json_object_string_map m) =
      assign_all UMap.empty m.entries := by
  rw [to_json_eq]
  cases hm : m.entries with
  | nil => decide
  | cons kv rest =>
    rw [hm] at h
    have hkv := h kv (List.mem_cons_self _ _)
    have hrest : ∀ e ∈ rest, json_plain e.1 ∧ json_plain e.2 :=
      fun e he => h e (List.mem_cons_of_mem _ he)
    generalize hcontent : 123 :: (pairs_text (kv :: rest) ++ [125]) = content
    have F0 : content = [] ++ 123 :: (pairs_text (kv :: rest) ++ [125]) := by
      rw [← hcontent]; rfl
    have F1 : content = [123] ++ 34 :: (json_escape kv.1 ++ [34] ++ [58] ++ [34] ++
        json_escape kv.2 ++ [34] ++ tail_text rest ++ [125]) := by
      rw [← hcontent]; simp [pairs_text, pair_text]
    have F2 : content = [123] ++ (pair_text kv ++ (tail_text rest ++ 125 :: [])) := by
      rw [← hcontent]; simp [pairs_text]
    have h_sk0 : skip_ws content 0 = 0 := by
      have := skip_ws_stop [] 123 (pairs_text (kv :: rest) ++ [125]) (by decide)
      rwa [← F0] at this
    have h_c0 : char_at content 0 = 123 := by
      have := char_at_append [] 123 (pairs_text (kv :: rest) ++ [125])
      rwa [← F0] at this
    have h_lt0 : 0 < content.length := by rw [← hcontent]; simp
    have h_sk1 : skip_ws content 1 = 1 := by
      have := skip_ws_stop [123] 34 (json_escape kv.1 ++ [34] ++ [58] ++ [34] ++
        json_escape kv.2 ++ [34] ++ tail_text rest ++ [125]) (by decide)
      rwa [← F1] at this
    have h_c1 : char_at content 1 = 34 := by
      have := char_at_append [123] 34 (json_escape kv.1 ++ [34] ++ [58] ++ [34] ++
        json_escape kv.2 ++ [34] ++ tail_text rest ++ [125])
      rwa [← F1] at this
    have hfuel : rest.length < content.length := by
      rw [F2]
      have := tail_text_length rest
      simp only [List.length_append, List.length_cons, List.length_nil]
      omega
    have hloop := parse_pairs_loop_written rest kv [123] [] UMap.empty content.length
      hkv.1 hkv.2 hrest hfuel
    rw [← F2] at hloop
    unfold parse_json_object_string_map
    simp only [h_sk0, h_c0, h_sk1, h_c1]
    have hn : ¬ (0 ≥ content.length ∨ (123 : Nat) ≠ 123) := by
      intro h
      rcases h with h | h
      · omega
      · exact h rfl
    rw [if_neg hn]
    rw [if_neg (fun h => absurd h.2 (by decide))]
    exact hloop

theorem assoc_erase_fresh (k : Str) (l : List (Str × Str)) (h : ∀ e ∈ l, e.1 ≠ k) :
    assoc_erase k l = l := by
  unfold assoc_erase
  rw [List.filter_eq_self]
  intro e he
  simpa using h e he

theorem assign_all_entries (l : List (Str × Str)) :
    ∀ m : UMap, (l.map Prod.fst).Nodup → (∀ e ∈ l, ∀ e2 ∈ m.entries, e2.1 ≠ e.1) →
      (assign_all m l).entries = l.reverse ++ m.entries := by
  induction l with
  | nil => intro m _ _; rfl
  | cons kv rest ih =>
    intro m hnd hfresh
    have hnd2 := List.nodup_cons.1 hnd
    have herase : assoc_erase kv.1 m.entries = m.entries :=
      assoc_erase_fresh _ _ (fun e2 he2 => hfresh kv (List.mem_cons_self _ _) e2 he2)
    have hent : (m.assign kv.1 kv.2).entries = kv :: m.entries := by
      simp [UMap.assign, herase]
    have hstep : assign_all m (kv :: rest) = assign_all (m.assign kv.1 kv.2) rest := rfl
    rw [hstep, ih (m.assign kv.1 kv.2) hnd2.2 ?_, hent]
    · simp
    · intro e he e2 he2
      rw [hent] at he2
      rcases List.mem_cons.1 he2 with rfl | he2
      · intro heq
        exact hnd2.1 (List.mem_map.2 ⟨e, he, heq.symm⟩)
      · exact hfresh e (List.mem_cons_of_mem _ he) e2 he2

theorem assoc_find_eq_some_iff (k v : Str) (l : List (Str × Str))
    (hnd : (l.map Prod.fst).Nodup) : assoc_find k l = some v ↔ (k, v) ∈ l := by
  induction l with
  | nil => simp [assoc_find]
  | cons e t ih =>
    have hnd2 := List.nodup_cons.1 hnd
    by_cases h : e.1 = k
    · simp only [assoc_find, if_pos h, Option.some.injEq, List.mem_cons]
      constructor
      · intro hv
        exact Or.inl (by rw [← h, ← hv])
      · rintro (heq | hmem)
        · rw [← heq]
        · exact absurd (List.mem_map.2 ⟨(k, v), hmem, h.symm⟩) hnd2.1
    · simp only [assoc_find, if_neg h, List.mem_cons]
      rw [ih hnd2.2]
      constructor
      · exact Or.inr
      · rintro (heq | hmem)
        · exact absurd (by rw [← heq]) h
        · exact hmem

/-- Two maps with the same entries answer every lookup alike. -/
theorem find_eq_of_perm (m m2 : UMap) (h : m2.entries.Perm m.entries) (k : Str) :
    m2.find k = m.find k := by
  unfold UMap.find
  cases h1 : assoc_find k m.entries with
  | none =>
    rw [assoc_find_eq_none_iff] at h1 ⊢
    exact fun e he => h1 e (h.mem_iff.1 he)
  | some v =>
    rw [assoc_find_eq_some_iff k v _ m.nodup] at h1
    rw [assoc_find_eq_some_iff k v _ m2.nodup]
    exact h.mem_iff.2 h1

theorem json_plain_of_valid_id (id : Str) (h : is_valid_id id = true) : json_plain id := by
  intro c hc
  have := ((is_valid_id_iff_shape id).1 h).2.2 c hc
  unfold is_alnum at this
  omega

/-- Reading back the text written for a map with valid ids and sanitized names gives the
same entries. -/
theorem parse_to_json_perm (m : UMap)
    (hk : ∀ e ∈ m.entries, is_valid_id e.1 = true)
    (hv : ∀ e ∈ m.entries, ∃ name, e.2 = sanitize_filename name) :
    (parse_json_object_string_map (to_json_object_string_map m)).entries.Perm m.entries := by
  have hplain : ∀ e ∈ m.entries, json_plain e.1 ∧ json_plain e.2 := by
    intro e he
    refine ⟨json_plain_of_valid_id _ (hk e he), ?_⟩
    obtain ⟨name, hname⟩ := hv e he
    rw [hname]
    exact sanitize_filename_clean name
  rw [parse_to_json_plain m hplain, assign_all_entries m.entries UMap.empty m.nodup
    (fun _ _ e2 he2 => by cases he2)]
  have : (UMap.empty).entries = [] := rfl
  rw [this, List.append_nil]
  exact List.reverse_perm _

/-- C8: for a mapping `m` whose keys satisfy `is_valid_id` and whose values are results of
`sanitize_filename`, and for every iteration order `m2` of its entries, parsing the text
written for `m2` gives a map that equals `m` (the same lookups, the same entries); so a
fresh instance that loads a mapping file holding that text lists what the store listed, and
so does a fresh instance that loads the file left by a successful `save_mapping` whose stream
stored the whole text. -/
theorem restart_round_trip (m m2 : UMap) (cfg : StorageConfig) (disk : FileSystem)
    (o : SaveOutcome)
    (hk : ∀ e ∈ m.entries, is_valid_id e.1 = true)
    (hv : ∀ e ∈ m.entries, ∃ name, e.2 = sanitize_filename name)
    (hperm : m2.entries.Perm m.entries) :
    (∀ id, (parse_json_object_string_map (to_json_object_string_map m2)).find id = m.find id) ∧
      (parse_json_object_string_map (to_json_object_string_map m2)).entries.Perm m.entries ∧
      list (init (Storage.create cfg
          { disk with mapping_file := some (to_json_object_string_map m2) }) true).2 =
        list ⟨cfg, m, disk⟩ ∧
      ((save_mapping ⟨cfg, m2, disk⟩ o).1 = true →
        (to_json_object_string_map m2).length ≤ o.written →
        list (init (Storage.create cfg (save_mapping ⟨cfg, m2, disk⟩ o).2.2) true).2 =
          list ⟨cfg, m, disk⟩) := by
  have hk2 : ∀ e ∈ m2.entries, is_valid_id e.1 = true := fun e he => hk e (hperm.mem_iff.1 he)
  have hv2 : ∀ e ∈ m2.entries, ∃ name, e.2 = sanitize_filename name :=
    fun e he => hv e (hperm.mem_iff.1 he)
  have hp := (parse_to_json_perm m2 hk2 hv2).trans hperm
  have hload : ∀ d : FileSystem, d.mapping_file = some (to_json_object_string_map m2) →
      list (init (Storage.create cfg d) true).2 = list ⟨cfg, m, disk⟩ := by
    intro d hd
    have hmap : (init (Storage.create cfg d) true).2.mapping_ =
        parse_json_object_string_map (to_json_object_string_map m2) := by
      simp [init, load_mapping, Storage.create, hd]
    exact list_eq_of_perm ⟨cfg, m, disk⟩ _ (by rw [hmap]; exact hp)
  refine ⟨fun id => find_eq_of_perm m _ hp id, hp, hload _ rfl, ?_⟩
  intro hs hw
  apply hload
  unfold save_mapping at hs ⊢
  by_cases h1 : o.open_ok = false
  · simp [h1] at hs
  · by_cases h2 : o.rename_ok = false
    · simp [h1, h2] at hs
    · simp [h1, h2, List.take_of_length_le hw]

/-- The sample mapping, saved in one iteration order and loaded by a fresh instance, is
listed as before. -/
theorem restart_round_trip_witness :
    sample_map_ba.entries.Perm sample_map_ab.entries ∧
      (save_mapping ⟨sample_cfg, sample_map_ba, sample_disk⟩ save_fine).1 = true ∧
      (to_json_object_string_map sample_map_ba).length ≤ save_fine.written ∧
      (parse_json_object_string_map (to_json_object_string_map sample_map_ba)).entries.Perm
        sample_map_ab.entries ∧
      list (init (Storage.create sample_cfg
          (save_mapping ⟨sample_cfg, sample_map_ba, sample_disk⟩ save_fine).2.2) true).2 =
        list ⟨sample_cfg, sample_map_ab, sample_disk⟩ :=
  have h := restart_round_trip sample_map_ab sample_map_ba sample_cfg sample_disk save_fine
    (by decide)
    (fun e he =>
      ⟨e.2, (by decide : ∀ e ∈ sample_map_ab.entries, e.2 = sanitize_filename e.2) e he⟩)
    (List.Perm.swap _ _ _)
  ⟨List.Perm.swap _ _ _, by decide, by decide, h.2.1, h.2.2.2 (by decide) (by decide)⟩

/-! ## The shape of the listed ids -/

/-- The mapping after `add_file_from_buffer`: unchanged, or with one entry assigned under a
generated id. -/
theorem add_mapping_cases (s : Storage) (o : AddOutcome) (buffer original_name : Str) :
    (add_file_from_buffer s o buffer original_name).2.mapping_ = s.mapping_ ∨
      ∃ a, (add_file_from_buffer s o buffer original_name).2.mapping_ =
        s.mapping_.assign (generate_id 22 (o.draw a)) (sanitize_filename original_name) := by
  cases hok : (add_file_from_buffer s o buffer original_name).1.ok with
  | true =>
    obtain ⟨a, -, -, hm, -⟩ := add_ok_shape s o buffer original_name hok
    exact Or.inr ⟨a, hm⟩
  | false =>
    left
    unfold add_file_from_buffer at hok ⊢
    by_cases h1 : s.cfg_.max_file_size > 0 ∧ buffer.length > s.cfg_.max_file_size
    · rw [if_pos h1]
    · by_cases h2 : (pick_id s.disk o.draw 10 0).isEmpty = true
      · simp [h1, h2]
      · by_cases h3 : o.open_ok = false
        · simp [h1, h2, h3]
        · by_cases h4 : o.rename_ok = false
          · simp [h1, h2, h3, h4]
          · simp [h1, h2, h3, h4] at hok

/-- The mapping after `delete_file`: unchanged, or with the entry of `id` erased. -/
theorem delete_mapping_cases (s : Storage) (o : DeleteOutcome) (id : Str) :
    (delete_file s o id).2.2.mapping_ = s.mapping_ ∨
      (delete_file s o id).2.2.mapping_ = s.mapping_.erase id := by
  unfold delete_file
  split
  · exact Or.inl rfl
  · split
    · exact Or.inl rfl
    · split
      · exact Or.inl rfl
      · exact Or.inr rfl

/-- One call keeps every key of the mapping valid. -/
theorem apply_keeps_ids_valid (s : Storage) (op : Op)
    (h : ∀ e ∈ s.mapping_.entries, is_valid_id e.1 = true) :
    ∀ e ∈ (op.apply s).mapping_.entries, is_valid_id e.1 = true := by
  cases op with
  | add o buffer original_name =>
    simp only [Op.apply]
    rcases add_mapping_cases s o buffer original_name with hm | ⟨a, hm⟩
    · rw [hm]; exact h
    · rw [hm]
      intro e he
      rcases List.mem_cons.1 he with rfl | he
      · exact generate_id_valid _
      · exact h e (List.mem_filter.1 he).1
  | del o id =>
    simp only [Op.apply]
    rcases delete_mapping_cases s o id with hm | hm
    · rw [hm]; exact h
    · rw [hm]
      intro e he
      exact h e (List.mem_filter.1 he).1

theorem run_keeps_ids_valid (ops : List Op) :
    ∀ s : Storage, (∀ e ∈ s.mapping_.entries, is_valid_id e.1 = true) →
      ∀ e ∈ (run s ops).mapping_.entries, is_valid_id e.1 = true := by
  induction ops with
  | nil => intro s h; exact h
  | cons op rest ih =>
    intro s h
    exact ih (op.apply s) (apply_keeps_ids_valid s op h)

/-- C10, as stated, fails: `load_mapping` takes the keys of the mapping file as they are, so
after `init` over a file whose text is `{"../x":"y"}` the listing holds the id `../x`, which
`is_valid_id` rejects. -/
theorem loaded_ids_not_validated :
    list (run (init (Storage.create sample_cfg sample_disk_foreign) true).2 []) =
        [(bytes "../x", bytes "y")] ∧
      is_valid_id (bytes "../x") = false := by
  decide

/-- C10, amended: when the mapping file is absent, or its text parses to keys that all
satisfy `is_valid_id`, then in every state reached by `init` followed by any sequence of
`add_file_from_buffer` and `delete_file` calls, every id in `list()` satisfies `is_valid_id`. -/
theorem id_shape_invariant (cfg : StorageConfig) (disk : FileSystem) (dirs_ok : Bool)
    (ops : List Op)
    (h : ∀ text, disk.mapping_file = some text →
      ∀ e ∈ (parse_json_object_string_map text).entries, is_valid_id e.1 = true) :
    ∀ e ∈ list (run (init (Storage.create cfg disk) dirs_ok).2 ops), is_valid_id e.1 = true := by
  have h0 : ∀ e ∈ (init (Storage.create cfg disk) dirs_ok).2.mapping_.entries,
      is_valid_id e.1 = true := by
    unfold init
    cases dirs_ok with
    | false =>
      intro e he
      cases he
    | true =>
      simp only [Bool.true_eq_false, if_false]
      unfold load_mapping
      cases hf : (Storage.create cfg disk).disk.mapping_file with
      | none =>
        intro e he
        cases he
      | some text => exact h text hf
  intro e he
  exact run_keeps_ids_valid ops _ h0 e ((mem_list_iff _ e).1 he)

/-- After a restart over the saved sample mapping, an upload and a deletion, every listed id
is valid. -/
theorem id_shape_invariant_witness :
    (∀ text, sample_disk_saved.mapping_file = some text →
        ∀ e ∈ (parse_json_object_string_map text).entries, is_valid_id e.1 = true) ∧
      ∀ e ∈ list (run (init (Storage.create sample_cfg sample_disk_saved) true).2
          [Op.add add_fine (bytes "hi") (bytes "hello.txt"), Op.del del_fine (bytes "abcdef")]),
        is_valid_id e.1 = true :=
  have h : ∀ text, sample_disk_saved.mapping_file = some text →
      ∀ e ∈ (parse_json_object_string_map text).entries, is_valid_id e.1 = true := by
    intro text ht
    have : text = to_json_object_string_map sample_map_ab := by
      have h2 : sample_disk_saved.mapping_file = some (to_json_object_string_map sample_map_ab) :=
        rfl
      rw [h2] at ht
      exact (Option.some.inj ht).symm
    subst this
    decide
  ⟨h, id_shape_invariant sample_cfg sample_disk_saved true _ h⟩

/-! ## The path of a blob -/

/-- C11: `blob_path_for(id)` returns a path if and only if `is_valid_id(id)` holds and a file
named `id` exists directly under `resources_dir`, and the path it returns is
`resources_dir / id`. -/
theorem blob_path_for_iff (s : Storage) (id : Str) :
    ((blob_path_for s id).isSome = true ↔ is_valid_id id = true ∧ fs_exists s.disk id = true) ∧
      ∀ p, blob_path_for s id = some p ↔
        (is_valid_id id = true ∧ fs_exists s.disk id = true) ∧ p = ⟨s.cfg_.resources_dir, id⟩ := by
  unfold blob_path_for
  cases hv : is_valid_id id with
  | false =>
    simp
  | true =>
    cases he : fs_exists s.disk id with
    | false => simp
    | true =>
      simp only [Bool.true_eq_false, if_false, if_true, Option.isSome_some, and_self, true_and,
        Option.some.injEq, true_iff]
      intro p
      exact eq_comm

/-! ## Failures of adding -/

/-- Whenever `add_file_from_buffer` returns failure, it returns no id and leaves the mapping
(hence `list()`) as it was. -/
theorem add_failure_keeps_mapping (s : Storage) (o : AddOutcome) (buffer original_name : Str)
    (h : (add_file_from_buffer s o buffer original_name).1.ok = false) :
    (add_file_from_buffer s o buffer original_name).1.out_id = none ∧
      (add_file_from_buffer s o buffer original_name).2.mapping_ = s.mapping_ ∧
      list (add_file_from_buffer s o buffer original_name).2 = list s := by
  have hboth : (add_file_from_buffer s o buffer original_name).1.out_id = none ∧
      (add_file_from_buffer s o buffer original_name).2.mapping_ = s.mapping_ := by
    unfold add_file_from_buffer at h ⊢
    by_cases h1 : s.cfg_.max_file_size > 0 ∧ buffer.length > s.cfg_.max_file_size
    · rw [if_pos h1]
      exact ⟨rfl, rfl⟩
    · by_cases h2 : (pick_id s.disk o.draw 10 0).isEmpty = true
      · simp [h1, h2]
      · by_cases h3 : o.open_ok = false
        · simp [h1, h2, h3]
        · by_cases h4 : o.rename_ok = false
          · simp [h1, h2, h3, h4]
          · simp [h1, h2, h3, h4] at h
  refine ⟨hboth.1, hboth.2, ?_⟩
  unfold list
  rw [hboth.2]

/-- A failed open of the temporary file and a failed rename both make `add_file_from_buffer`
report failure. -/
theorem add_fails_on_open_or_rename (s : Storage) (o : AddOutcome) (buffer original_name : Str)
    (h : o.open_ok = false ∨ o.rename_ok = false) :
    (add_file_from_buffer s o buffer original_name).1.ok = false := by
  unfold add_file_from_buffer
  by_cases h1 : s.cfg_.max_file_size > 0 ∧ buffer.length > s.cfg_.max_file_size
  · rw [if_pos h1]
  · by_cases h2 : (pick_id s.disk o.draw 10 0).isEmpty = true
    · simp [h1, h2]
    · by_cases h3 : o.open_ok = false
      · simp [h1, h2, h3]
      · by_cases h4 : o.rename_ok = false
        · simp [h1, h2, h3, h4]
        · rcases h with h | h
          · exact absurd h h3
          · exact absurd h h4

/-- C12, at a failing run: the write of the content bytes fails (the stream stores none of the
two bytes of `"hi"`), yet `add_file_from_buffer` reports success, returns an id and records
the entry, so `list()` changes. -/
theorem add_records_entry_after_failed_write :
    add_disk_full.written < (bytes "hi").length ∧
      (add_file_from_buffer sample_store add_disk_full (bytes "hi") (bytes "x.txt")).1.ok = true ∧
      (add_file_from_buffer sample_store add_disk_full (bytes "hi") (bytes "x.txt")).1.out_id =
        some sample_id ∧
      list sample_store = [] ∧
      list (add_file_from_buffer sample_store add_disk_full (bytes "hi") (bytes "x.txt")).2 =
        [(sample_id, bytes "x.txt")] := by
  decide

/-! ## Failed persistence -/

theorem save_mapping_fails_iff (s : Storage) (o : SaveOutcome) :
    (save_mapping s o).1 = false ↔ (o.open_ok = false ∨ o.rename_ok = false) := by
  unfold save_mapping
  by_cases h1 : o.open_ok = false
  · simp [h1]
  · by_cases h2 : o.rename_ok = false
    · simp [h1, h2]
    · simp [h1, h2]

theorem save_mapping_err_of_fail (s : Storage) (o : SaveOutcome)
    (h : (save_mapping s o).1 = false) : ∃ e, (save_mapping s o).2.1 = some e := by
  unfold save_mapping at h ⊢
  by_cases h1 : o.open_ok = false
  · exact ⟨SaveErr.open_temp_mapping, by simp [h1]⟩
  · by_cases h2 : o.rename_ok = false
    · exact ⟨SaveErr.rename_failed, by simp [h1, h2]⟩
    · simp [h1, h2] at h

/-- The result of `add_file_from_buffer` when the size test passes, an id is found, and the
temporary file is opened and renamed. -/
theorem add_reaches_save (s : Storage) (o : AddOutcome) (buffer original_name : Str)
    (hsize : ¬ (s.cfg_.max_file_size > 0 ∧ buffer.length > s.cfg_.max_file_size))
    (hid : pick_id s.disk o.draw 10 0 ≠ [])
    (hopen : o.open_ok = true) (hrename : o.rename_ok = true) :
    (add_file_from_buffer s o buffer original_name).1.ok = true ∧
      (add_file_from_buffer s o buffer original_name).1.out_id =
        some (pick_id s.disk o.draw 10 0) ∧
      (add_file_from_buffer s o buffer original_name).1.err =
        (if (save_mapping
            { s with
              disk := { s.disk with
                resources := (s.disk.resources.erase
                  (pick_id s.disk o.draw 10 0 ++ bytes ".tmp")).assign
                  (pick_id s.disk o.draw 10 0) (buffer.take o.written) },
              mapping_ := s.mapping_.assign (pick_id s.disk o.draw 10 0)
                (sanitize_filename original_name) } o.save).1 = false
          then some (ErrMsg.persist_mapping (save_mapping
            { s with
              disk := { s.disk with
                resources := (s.disk.resources.erase
                  (pick_id s.disk o.draw 10 0 ++ bytes ".tmp")).assign
                  (pick_id s.disk o.draw 10 0) (buffer.take o.written) },
              mapping_ := s.mapping_.assign (pick_id s.disk o.draw 10 0)
                (sanitize_filename original_name) } o.save).2.1)
          else none) := by
  have hne : (pick_id s.disk o.draw 10 0).isEmpty = false := by
    cases hp : pick_id s.disk o.draw 10 0 with
    | nil => exact absurd hp hid
    | cons c t => rfl
  unfold add_file_from_buffer
  simp only [if_neg hsize, hne, hopen, hrename, Bool.false_eq_true, Bool.true_eq_false, if_false]
  exact ⟨trivial, trivial, trivial⟩

/-- C13: when the size test passes, a free id is found, the temporary file is opened, the
content bytes are all stored and the rename succeeds, but `save_mapping` fails, then
`add_file_from_buffer` still returns success with the new id, stores the persistence warning in
`err`, and the in-memory mapping holds `id -> sanitize_filename(name)`, so the download of
`id` succeeds at once with that name and the content. -/
theorem add_persistence_failure_policy (s : Storage) (o : AddOutcome)
    (buffer original_name : Str)
    (hsize : ¬ (s.cfg_.max_file_size > 0 ∧ buffer.length > s.cfg_.max_file_size))
    (hid : pick_id s.disk o.draw 10 0 ≠ [])
    (hopen : o.open_ok = true) (hwrite : buffer.length ≤ o.written)
    (hrename : o.rename_ok = true)
    (hsave : o.save.open_ok = false ∨ o.save.rename_ok = false) :
    ∃ id e,
      (add_file_from_buffer s o buffer original_name).1 =
        ⟨true, some id, some (ErrMsg.persist_mapping (some e))⟩ ∧
      (add_file_from_buffer s o buffer original_name).2.mapping_.find id =
        some (sanitize_filename original_name) ∧
      (id, sanitize_filename original_name) ∈
        list (add_file_from_buffer s o buffer original_name).2 ∧
      download (add_file_from_buffer s o buffer original_name).2 id =
        some (⟨s.cfg_.resources_dir, id⟩, sanitize_filename original_name, buffer) := by
  obtain ⟨hok, hout, herr⟩ := add_reaches_save s o buffer original_name hsize hid hopen hrename
  obtain ⟨id, hout2, -, hname, -, -, hdl⟩ :=
    add_then_get_of_complete_write s o buffer original_name hok hwrite
  have hfail := (save_mapping_fails_iff
    { s with
      disk := { s.disk with
        resources := (s.disk.resources.erase
          (pick_id s.disk o.draw 10 0 ++ bytes ".tmp")).assign
          (pick_id s.disk o.draw 10 0) (buffer.take o.written) },
      mapping_ := s.mapping_.assign (pick_id s.disk o.draw 10 0)
        (sanitize_filename original_name) } o.save).2 hsave
  obtain ⟨e, he⟩ := save_mapping_err_of_fail _ _ hfail
  rw [if_pos hfail, he] at herr
  refine ⟨id, e, ?_, hname, ?_, hdl⟩
  · cases hr : (add_file_from_buffer s o buffer original_name).1 with
    | mk ok out_id err =>
      rw [hr] at hok hout2 herr
      simp only at hok hout2 herr
      rw [hok, hout2, herr]
  · rw [mem_list_iff]
    unfold get_original_name at hname
    exact (assoc_find_eq_some_iff _ _ _
      (add_file_from_buffer s o buffer original_name).2.mapping_.nodup).1 hname

/-- The sample upload with a save that cannot open its temporary file is reported as a success
with a warning, and can be downloaded. -/
theorem add_persistence_failure_policy_witness :
    (pick_id sample_store.disk add_save_broken.draw 10 0 ≠ [] ∧
        add_save_broken.open_ok = true ∧ (bytes "hi").length ≤ add_save_broken.written ∧
        add_save_broken.rename_ok = true ∧ add_save_broken.save.open_ok = false) ∧
      ∃ id e,
        (add_file_from_buffer sample_store add_save_broken (bytes "hi") (bytes "hello.txt")).1 =
          ⟨true, some id, some (ErrMsg.persist_mapping (some e))⟩ ∧
        (add_file_from_buffer sample_store add_save_broken (bytes "hi")
          (bytes "hello.txt")).2.mapping_.find id =
            some (sanitize_filename (bytes "hello.txt")) ∧
        (id, sanitize_filename (bytes "hello.txt")) ∈
          list (add_file_from_buffer sample_store add_save_broken (bytes "hi")
            (bytes "hello.txt")).2 ∧
        download (add_file_from_buffer sample_store add_save_broken (bytes "hi")
            (bytes "hello.txt")).2 id =
          some (⟨sample_store.cfg_.resources_dir, id⟩, sanitize_filename (bytes "hello.txt"),
            bytes "hi") :=
  ⟨⟨by decide, by decide, by decide, by decide, by decide⟩,
    add_persistence_failure_policy sample_store add_save_broken (bytes "hi") (bytes "hello.txt")
      (by decide) (by decide) (by decide) (by decide) (by decide) (Or.inl (by decide))⟩

/-- C14: for a valid id whose file exists, when the removal succeeds and the final
`save_mapping` fails, `delete_file` returns failure with the message of `save_mapping`, while
the file `resources_dir/id` no longer exists and the in-memory mapping no longer contains
`id`. -/
theorem delete_persistence_failure_policy (s : Storage) (o : DeleteOutcome) (id : Str)
    (hv : is_valid_id id = true) (hex : fs_exists s.disk id = true)
    (hrm : o.remove_ok = true)
    (hsave : o.save.open_ok = false ∨ o.save.rename_ok = false) :
    (delete_file s o id).1 = false ∧
      (∃ e, (delete_file s o id).2.1 = some (ErrMsg.from_save e)) ∧
      fs_exists (delete_file s o id).2.2.disk id = false ∧
      (delete_file s o id).2.2.mapping_.find id = none ∧
      (∀ e ∈ list (delete_file s o id).2.2, e.1 ≠ id) := by
  have hfail := (save_mapping_fails_iff
    { s with
      disk := { s.disk with resources := s.disk.resources.erase id },
      mapping_ := s.mapping_.erase id } o.save).2 hsave
  obtain ⟨e, he⟩ := save_mapping_err_of_fail _ _ hfail
  have hres := save_mapping_resources
    { s with
      disk := { s.disk with resources := s.disk.resources.erase id },
      mapping_ := s.mapping_.erase id } o.save
  unfold delete_file
  simp only [hv, hex, hrm, Bool.true_eq_false, if_false]
  refine ⟨hfail, ⟨e, by rw [he]; rfl⟩, ?_, find_erase_self _ _, ?_⟩
  · unfold fs_exists
    rw [hres]
    exact congrArg Option.isSome (find_erase_self s.disk.resources id)
  · intro x hx
    have := (mem_list_iff _ x).1 hx
    exact assoc_erase_no_key id _ x this

/-- Deleting the sample upload with a save that cannot open its temporary file is reported as a
failure although the file and the entry are gone. -/
theorem delete_persistence_failure_policy_witness :
    is_valid_id sample_id = true ∧ fs_exists sample_store_hi.disk sample_id = true ∧
      (delete_file sample_store_hi del_save_broken sample_id).1 = false ∧
      fs_exists (delete_file sample_store_hi del_save_broken sample_id).2.2.disk sample_id =
        false ∧
      (delete_file sample_store_hi del_save_broken sample_id).2.2.mapping_.find sample_id =
        none :=
  have h := delete_persistence_failure_policy sample_store_hi del_save_broken sample_id
    (by decide) (by decide) (by decide) (by decide)
  ⟨by decide, by decide, h.1, h.2.2.1, h.2.2.2.1⟩

/-- C15: when `is_valid_id(id)` is false, or no file named `id` exists under `resources_dir`,
`delete_file(id)` returns failure with "Invalid id" or "Not found" and leaves the whole store
(mapping, files, mapping file) as it was, whether or not the mapping holds an entry for
`id`. -/
theorem delete_rejected_unchanged (s : Storage) (o : DeleteOutcome) (id : Str)
    (h : is_valid_id id = false ∨ fs_exists s.disk id = false) :
    (delete_file s o id = (false, some ErrMsg.invalid_id, s) ∨
        delete_file s o id = (false, some ErrMsg.not_found, s)) ∧
      (is_valid_id id = false → delete_file s o id = (false, some ErrMsg.invalid_id, s)) ∧
      (is_valid_id id = true → delete_file s o id = (false, some ErrMsg.not_found, s)) := by
  unfold delete_file
  cases hv : is_valid_id id with
  | false => simp
  | true =>
    rcases h with h | h
    · rw [hv] at h
      cases h
    · simp [h]

/-- An entry whose file is missing cannot be deleted: the call fails with "Not found" and the
entry stays in the mapping. -/
theorem delete_rejected_unchanged_witness :
    (is_valid_id sample_id = false ∨ fs_exists sample_store_orphan.disk sample_id = false) ∧
      sample_store_orphan.mapping_.find sample_id = some (bytes "gone.txt") ∧
      delete_file sample_store_orphan del_fine sample_id =
        (false, some ErrMsg.not_found, sample_store_orphan) :=
  ⟨Or.inr (by decide), by decide,
    (delete_rejected_unchanged sample_store_orphan del_fine sample_id
      (Or.inr (by decide))).2.2 (by decide)⟩

/-! ## The retry loop -/

/-- The loop of `add_file_from_buffer` stops at the first candidate that names no existing
entry, and leaves `id` empty when every candidate it tried names one. -/
theorem pick_id_spec (disk : FileSystem) (draw : Nat → Nat → Fin 62) (left : Nat) :
    ∀ attempt : Nat,
      (pick_id disk draw left attempt = [] ∧
          ∀ k, k < left → fs_exists disk (generate_id 22 (draw (attempt + k))) = true) ∨
        ∃ k, k < left ∧
          pick_id disk draw left attempt = generate_id 22 (draw (attempt + k)) ∧
          fs_exists disk (generate_id 22 (draw (attempt + k))) = false ∧
          ∀ j, j < k → fs_exists disk (generate_id 22 (draw (attempt + j))) = true := by
  induction left with
  | zero =>
    intro attempt
    exact Or.inl ⟨rfl, fun k hk => absurd hk (Nat.not_lt_zero k)⟩
  | succ n ih =>
    intro attempt
    simp only [pick_id]
    by_cases h : fs_exists disk (generate_id 22 (draw attempt)) = false
    · rw [if_pos h]
      exact Or.inr ⟨0, Nat.succ_pos n, rfl, h, fun j hj => absurd hj (Nat.not_lt_zero j)⟩
    · rw [if_neg h]
      have hex : fs_exists disk (generate_id 22 (draw attempt)) = true := by
        simpa using h
      rcases ih (attempt + 1) with ⟨hnil, hall⟩ | ⟨k, hk, hpick, hfree, hbefore⟩
      · refine Or.inl ⟨hnil, ?_⟩
        intro k hk
        cases k with
        | zero => exact hex
        | succ j =>
          have := hall j (by omega)
          rwa [show attempt + 1 + j = attempt + (j + 1) from by omega] at this
      · refine Or.inr ⟨k + 1, by omega, ?_, ?_, ?_⟩
        · rw [hpick, show attempt + 1 + k = attempt + (k + 1) from by omega]
        · rwa [show attempt + 1 + k = attempt + (k + 1) from by omega] at hfree
        · intro j hj
          cases j with
          | zero => exact hex
          | succ i =>
            have := hbefore i (by omega)
            rwa [show attempt + 1 + i = attempt + (i + 1) from by omega] at this

theorem generate_id_ne_nil (draw : Nat → Fin 62) : generate_id 22 draw ≠ [] := by
  intro h
  have := generate_id_length 22 draw
  rw [h] at this
  simp at this

/-- The loop of `add_file_from_buffer` reads the draws of the attempts it makes, and no
others. -/
theorem pick_id_congr (disk : FileSystem) (d d2 : Nat → Nat → Fin 62) (left : Nat) :
    ∀ attempt : Nat, (∀ a, attempt ≤ a → a < attempt + left → d2 a = d a) →
      pick_id disk d2 left attempt = pick_id disk d left attempt := by
  induction left with
  | zero => intro attempt _; rfl
  | succ n ih =>
    intro attempt h
    simp only [pick_id]
    rw [h attempt (le_refl _) (by omega), ih (attempt + 1) (fun a h1 h2 => h a (by omega) (by omega))]

/-- C16: with content inside the size limit, `add_file_from_buffer` fails with "Failed to
generate unique ID" if and only if each of the first ten candidates names an existing file,
and then nothing changes; otherwise it uses the first candidate that names no existing file;
and its result depends on the candidates of the first ten attempts only. -/
theorem bounded_id_retry (s : Storage) (o : AddOutcome) (buffer original_name : Str)
    (hsize : ¬ (s.cfg_.max_file_size > 0 ∧ buffer.length > s.cfg_.max_file_size)) :
    ((add_file_from_buffer s o buffer original_name).1.err = some ErrMsg.unique_id ↔
        ∀ a, a < 10 → fs_exists s.disk (generate_id 22 (o.draw a)) = true) ∧
      ((∀ a, a < 10 → fs_exists s.disk (generate_id 22 (o.draw a)) = true) →
        add_file_from_buffer s o buffer original_name =
          (⟨false, none, some ErrMsg.unique_id⟩, s)) ∧
      (∀ a, a < 10 → fs_exists s.disk (generate_id 22 (o.draw a)) = false →
        (∀ b, b < a → fs_exists s.disk (generate_id 22 (o.draw b)) = true) →
        pick_id s.disk o.draw 10 0 = generate_id 22 (o.draw a) ∧
          ((add_file_from_buffer s o buffer original_name).1.ok = true →
            (add_file_from_buffer s o buffer original_name).1.out_id =
                some (generate_id 22 (o.draw a)) ∧
              fs_exists (add_file_from_buffer s o buffer original_name).2.disk
                (generate_id 22 (o.draw a)) = true)) ∧
      (∀ d2 : Nat → Nat → Fin 62, (∀ a, a < 10 → d2 a = o.draw a) →
        add_file_from_buffer s { o with draw := d2 } buffer original_name =
          add_file_from_buffer s o buffer original_name) := by
  have hspec := pick_id_spec s.disk o.draw 10 0
  simp only [Nat.zero_add] at hspec
  have hnil_iff : pick_id s.disk o.draw 10 0 = [] ↔
      ∀ a, a < 10 → fs_exists s.disk (generate_id 22 (o.draw a)) = true := by
    constructor
    · intro hnil
      rcases hspec with ⟨-, hall⟩ | ⟨k, -, hpick, -, -⟩
      · exact hall
      · rw [hnil] at hpick
        exact absurd hpick.symm (generate_id_ne_nil _)
    · intro hall
      rcases hspec with ⟨hnil, -⟩ | ⟨k, hk, -, hfree, -⟩
      · exact hnil
      · rw [hall k hk] at hfree
        cases hfree
  have hexh : pick_id s.disk o.draw 10 0 = [] →
      add_file_from_buffer s o buffer original_name =
        (⟨false, none, some ErrMsg.unique_id⟩, s) := by
    intro hnil
    unfold add_file_from_buffer
    rw [if_neg hsize]
    simp [hnil]
  have hfirst : ∀ a, a < 10 → fs_exists s.disk (generate_id 22 (o.draw a)) = false →
      (∀ b, b < a → fs_exists s.disk (generate_id 22 (o.draw b)) = true) →
      pick_id s.disk o.draw 10 0 = generate_id 22 (o.draw a) := by
    intro a ha hfree hbefore
    rcases hspec with ⟨-, hall⟩ | ⟨k, hk, hpick, hkfree, hkbefore⟩
    · rw [hall a ha] at hfree
      cases hfree
    · have hka : k = a := by
        rcases Nat.lt_trichotomy k a with hlt | heq | hgt
        · rw [hbefore k hlt] at hkfree
          cases hkfree
        · exact heq
        · rw [hkbefore a hgt] at hfree
          cases hfree
      rw [hpick, hka]
  refine ⟨⟨?_, fun hall => by rw [hexh (hnil_iff.2 hall)]⟩,
    fun hall => hexh (hnil_iff.2 hall), ?_, ?_⟩
  · intro herr
    rw [← hnil_iff]
    by_contra hne
    have hne2 : (pick_id s.disk o.draw 10 0).isEmpty = false := by
      cases hp : pick_id s.disk o.draw 10 0 with
      | nil => exact absurd hp hne
      | cons c t => rfl
    unfold add_file_from_buffer at herr
    rw [if_neg hsize] at herr
    simp only [hne2, Bool.false_eq_true, if_false] at herr
    by_cases h3 : o.open_ok = false
    · simp [h3] at herr
    · by_cases h4 : o.rename_ok = false
      · simp [h3, h4] at herr
      · simp only [if_neg h3, if_neg h4] at herr
        split at herr
        · simp at herr
        · simp at herr
  · intro a ha hfree hbefore
    have hpick := hfirst a ha hfree hbefore
    refine ⟨hpick, fun hok => ?_⟩
    obtain ⟨hok2, hout, -⟩ := add_reaches_save s o buffer original_name hsize
      (by rw [hpick]; exact generate_id_ne_nil _)
      (by
        cases ho : o.open_ok with
        | true => rfl
        | false =>
          have := add_fails_on_open_or_rename s o buffer original_name (Or.inl ho)
          rw [this] at hok
          cases hok)
      (by
        cases hr : o.rename_ok with
        | true => rfl
        | false =>
          have := add_fails_on_open_or_rename s o buffer original_name (Or.inr hr)
          rw [this] at hok
          cases hok)
    rw [hpick] at hout
    refine ⟨hout, ?_⟩
    obtain ⟨a2, -, hout2, -, hres, -⟩ := add_ok_shape s o buffer original_name hok
    have hsame : generate_id 22 (o.draw a2) = generate_id 22 (o.draw a) := by
      rw [hout] at hout2
      exact (Option.some.inj hout2).symm
    unfold fs_exists
    rw [hres, hsame, find_assign_self]
    rfl
  · intro d2 hd
    have hp : pick_id s.disk d2 10 0 = pick_id s.disk o.draw 10 0 :=
      pick_id_congr s.disk o.draw d2 10 0 (fun a _ h2 => hd a (by omega))
    unfold add_file_from_buffer
    simp only [hp]

/-- With every candidate taken the sample upload fails with "Failed to generate unique ID"
and changes nothing; in the empty directory it uses the first candidate. -/
theorem bounded_id_retry_witness :
    (¬ (sample_store_taken.cfg_.max_file_size > 0 ∧
          (bytes "hi").length > sample_store_taken.cfg_.max_file_size) ∧
        (∀ a, a < 10 → fs_exists sample_store_taken.disk (generate_id 22 (add_fine.draw a)) =
          true)) ∧
      add_file_from_buffer sample_store_taken add_fine (bytes "hi") (bytes "hello.txt") =
        (⟨false, none, some ErrMsg.unique_id⟩, sample_store_taken) ∧
      pick_id sample_store.disk add_fine.draw 10 0 = generate_id 22 (add_fine.draw 0) :=
  have hall : ∀ a, a < 10 →
      fs_exists sample_store_taken.disk (generate_id 22 (add_fine.draw a)) = true := by
    intro a _
    exact (by decide :
      fs_exists sample_store_taken.disk (generate_id 22 (fun _ => 0)) = true)
  ⟨⟨by decide, hall⟩,
    (bounded_id_retry sample_store_taken add_fine (bytes "hi") (bytes "hello.txt")
      (by decide)).2.1 hall,
    ((bounded_id_retry sample_store add_fine (bytes "hi") (bytes "hello.txt")
      (by decide)).2.2.1 0 (by decide) (by decide)
      (fun b hb => absurd hb (Nat.not_lt_zero b))).1⟩

/-! ## What a call touches -/

theorem assoc_find_erase_ne (k k2 : Str) (h : k ≠ k2) (l : List (Str × Str)) :
    assoc_find k2 (assoc_erase k l) = assoc_find k2 l := by
  induction l with
  | nil => rfl
  | cons e t ih =>
    unfold assoc_erase at ih ⊢
    by_cases he : e.1 = k
    · have hne : ¬ e.1 = k2 := fun h2 => h (he.symm.trans h2)
      simp only [List.filter_cons, he, ne_eq, not_true_eq_false, decide_False,
        Bool.false_eq_true, if_false]
      rw [ih]
      simp only [assoc_find]
      rw [if_neg (by rw [he]; exact h)]
    · simp only [List.filter_cons, ne_eq, he, not_false_eq_true, decide_True, if_true,
        assoc_find]
      rw [ih]

theorem find_erase_ne (m : UMap) (k k2 : Str) (h : k ≠ k2) :
    (m.erase k).find k2 = m.find k2 :=
  assoc_find_erase_ne k k2 h m.entries

theorem find_assign_ne (m : UMap) (k v k2 : Str) (h : k ≠ k2) :
    (m.assign k v).find k2 = m.find k2 := by
  unfold UMap.find UMap.assign
  simp only [assoc_find]
  rw [if_neg h]
  exact assoc_find_erase_ne k k2 h m.entries

theorem tmp_name_not_valid (id : Str) : is_valid_id (id ++ bytes ".tmp") = false :=
  is_valid_id_false_of_other_byte _
    ⟨46, List.mem_append_right _ (by decide), by decide⟩

theorem fs_exists_of_entry (m : UMap) (e : Str × Str) (h : e ∈ m.entries) :
    (m.find e.1).isSome = true := by
  unfold UMap.find
  rw [(assoc_find_eq_some_iff e.1 e.2 m.entries m.nodup).2 h]
  rfl

/-- The store after `add_file_from_buffer`: unchanged; or, after a failed rename, with the
temporary file left behind; or, after a success, with the blob under the picked id and its
entry. -/
theorem add_state_cases (s : Storage) (o : AddOutcome) (buffer original_name : Str) :
    ((add_file_from_buffer s o buffer original_name).1.out_id = none ∧
        (add_file_from_buffer s o buffer original_name).2 = s) ∨
      ((add_file_from_buffer s o buffer original_name).1.out_id = none ∧
        (add_file_from_buffer s o buffer original_name).2.mapping_ = s.mapping_ ∧
        (add_file_from_buffer s o buffer original_name).2.disk.resources =
          s.disk.resources.assign (pick_id s.disk o.draw 10 0 ++ bytes ".tmp")
            (buffer.take o.written)) ∨
      ((add_file_from_buffer s o buffer original_name).1.out_id =
          some (pick_id s.disk o.draw 10 0) ∧
        fs_exists s.disk (pick_id s.disk o.draw 10 0) = false ∧
        is_valid_id (pick_id s.disk o.draw 10 0) = true ∧
        (add_file_from_buffer s o buffer original_name).2.mapping_ =
          s.mapping_.assign (pick_id s.disk o.draw 10 0) (sanitize_filename original_name) ∧
        (add_file_from_buffer s o buffer original_name).2.disk.resources =
          (s.disk.resources.erase (pick_id s.disk o.draw 10 0 ++ bytes ".tmp")).assign
            (pick_id s.disk o.draw 10 0) (buffer.take o.written)) := by
  unfold add_file_from_buffer
  by_cases h1 : s.cfg_.max_file_size > 0 ∧ buffer.length > s.cfg_.max_file_size
  · rw [if_pos h1]
    exact Or.inl ⟨rfl, rfl⟩
  · rw [if_neg h1]
    rcases pick_id_cases s.disk o.draw 10 0 with hp | ⟨a, hp, hfree⟩
    · left
      simp [hp]
    · have hne : (pick_id s.disk o.draw 10 0).isEmpty = false := by
        rw [hp]
        cases hg : generate_id 22 (o.draw a) with
        | nil => exact absurd hg (generate_id_ne_nil _)
        | cons c t => rfl
      simp only [hne, Bool.false_eq_true, if_false]
      by_cases h3 : o.open_ok = false
      · left
        simp [h3]
      · rw [if_neg h3]
        by_cases h4 : o.rename_ok = false
        · right
          left
          rw [if_pos h4]
          exact ⟨rfl, rfl, rfl⟩
        · right
          right
          rw [if_neg h4]
          refine ⟨rfl, by rw [hp]; exact hfree, by rw [hp]; exact generate_id_valid _, rfl, ?_⟩
          exact save_mapping_resources _ _

/-- The store after `delete_file`: unchanged, or with the file and the entry of `id` removed
together. -/
theorem delete_state_cases (s : Storage) (o : DeleteOutcome) (id : Str) :
    (delete_file s o id).2.2 = s ∨
      ((delete_file s o id).2.2.mapping_ = s.mapping_.erase id ∧
        (delete_file s o id).2.2.disk.resources = s.disk.resources.erase id) := by
  unfold delete_file
  split
  · exact Or.inl rfl
  · split
    · exact Or.inl rfl
    · split
      · exact Or.inl rfl
      · exact Or.inr ⟨rfl, save_mapping_resources _ _⟩

/-- C17, as stated, fails: in a store whose mapping has the key `sample_id.tmp` with a file of
that name, every key names an existing file; an upload that picks `sample_id` writes its
content over that file and renames it, after which the key `sample_id.tmp` names no file. -/
theorem tmp_named_key_loses_its_file :
    (∀ e ∈ sample_store_tmpkey.mapping_.entries,
        fs_exists sample_store_tmpkey.disk e.1 = true) ∧
      (add_file_from_buffer sample_store_tmpkey add_fine (bytes "hi") (bytes "hello.txt")).1.ok =
        true ∧
      ∃ e ∈ (add_file_from_buffer sample_store_tmpkey add_fine (bytes "hi")
          (bytes "hello.txt")).2.mapping_.entries,
        fs_exists (add_file_from_buffer sample_store_tmpkey add_fine (bytes "hi")
          (bytes "hello.txt")).2.disk e.1 = false := by
  decide

/-- C17, amended: if before a call every key of the in-memory mapping names an existing file
under `resources_dir`, then the same holds after `delete_file`, and it holds after
`add_file_from_buffer` when no key is the name of the temporary file of the call (the picked id
followed by `.tmp`), as is the case when every key satisfies `is_valid_id`; whatever the
outcome of the call.  A successful upload creates the entry and the file of its id together,
a failed one creates no entry, and `delete_file` removes the entry and the file of its id
together or removes neither. -/
theorem mapping_implies_blob (s : Storage) (oa : AddOutcome) (od : DeleteOutcome)
    (buffer original_name id : Str)
    (hinv : ∀ e ∈ s.mapping_.entries, fs_exists s.disk e.1 = true) :
    ((∀ e ∈ s.mapping_.entries, e.1 ≠ pick_id s.disk oa.draw 10 0 ++ bytes ".tmp") →
        ∀ e ∈ (add_file_from_buffer s oa buffer original_name).2.mapping_.entries,
          fs_exists (add_file_from_buffer s oa buffer original_name).2.disk e.1 = true) ∧
      ((∀ e ∈ s.mapping_.entries, is_valid_id e.1 = true) →
        ∀ e ∈ (add_file_from_buffer s oa buffer original_name).2.mapping_.entries,
          fs_exists (add_file_from_buffer s oa buffer original_name).2.disk e.1 = true) ∧
      (∀ e ∈ (delete_file s od id).2.2.mapping_.entries,
        fs_exists (delete_file s od id).2.2.disk e.1 = true) ∧
      (∀ k, (add_file_from_buffer s oa buffer original_name).1.out_id = some k →
        ((add_file_from_buffer s oa buffer original_name).2.mapping_.find k).isSome = true ∧
          fs_exists (add_file_from_buffer s oa buffer original_name).2.disk k = true ∧
          s.mapping_.find k = none ∧ fs_exists s.disk k = false) ∧
      ((add_file_from_buffer s oa buffer original_name).1.ok = false →
        (add_file_from_buffer s oa buffer original_name).2.mapping_ = s.mapping_) ∧
      ((delete_file s od id).2.2 = s ∨
        ((delete_file s od id).2.2.mapping_.find id = none ∧
          fs_exists (delete_file s od id).2.2.disk id = false)) := by
  have hadd : (∀ e ∈ s.mapping_.entries, e.1 ≠ pick_id s.disk oa.draw 10 0 ++ bytes ".tmp") →
      ∀ e ∈ (add_file_from_buffer s oa buffer original_name).2.mapping_.entries,
        fs_exists (add_file_from_buffer s oa buffer original_name).2.disk e.1 = true := by
    intro htmp
    rcases add_state_cases s oa buffer original_name with
      ⟨-, hs⟩ | ⟨-, hm, hr⟩ | ⟨-, -, -, hm, hr⟩
    · rw [hs]
      exact hinv
    · rw [hm]
      intro e he
      unfold fs_exists
      rw [hr, find_assign_ne _ _ _ _ (fun h => htmp e he h.symm)]
      exact hinv e he
    · rw [hm]
      intro e he
      unfold fs_exists
      rw [hr]
      rcases List.mem_cons.1 he with rfl | he
      · rw [find_assign_self]
        rfl
      · have hmem := (List.mem_filter.1 he).1
        have hne : e.1 ≠ pick_id s.disk oa.draw 10 0 := assoc_erase_no_key _ _ e he
        rw [find_assign_ne _ _ _ _ (fun h => hne h.symm),
          find_erase_ne _ _ _ (fun h => htmp e hmem h.symm)]
        exact hinv e hmem
  refine ⟨hadd, ?_, ?_, ?_, fun h => (add_failure_keeps_mapping s oa buffer original_name h).2.1,
    ?_⟩
  · intro hvalid
    apply hadd
    intro e he heq
    have := hvalid e he
    rw [heq, tmp_name_not_valid] at this
    cases this
  · rcases delete_state_cases s od id with hs | ⟨hm, hr⟩
    · rw [hs]
      exact hinv
    · rw [hm]
      intro e he
      have hmem := (List.mem_filter.1 he).1
      have hne : e.1 ≠ id := assoc_erase_no_key _ _ e he
      unfold fs_exists
      rw [hr, find_erase_ne _ _ _ (fun h => hne h.symm)]
      exact hinv e hmem
  · intro k hk
    rcases add_state_cases s oa buffer original_name with
      ⟨hnone, -⟩ | ⟨hnone, -, -⟩ | ⟨hout, hfree, -, hm, hr⟩
    · rw [hnone] at hk
      cases hk
    · rw [hnone] at hk
      cases hk
    · rw [hout] at hk
      have hk2 : pick_id s.disk oa.draw 10 0 = k := Option.some.inj hk
      subst hk2
      refine ⟨by rw [hm, find_assign_self]; rfl, ?_, ?_, hfree⟩
      · unfold fs_exists
        rw [hr, find_assign_self]
        rfl
      · cases hf : s.mapping_.find (pick_id s.disk oa.draw 10 0) with
        | none => rfl
        | some v =>
          have hmem := (assoc_find_eq_some_iff _ v _ s.mapping_.nodup).1 hf
          have := hinv _ hmem
          rw [hfree] at this
          cases this
  · rcases delete_state_cases s od id with hs | ⟨hm, hr⟩
    · exact Or.inl hs
    · refine Or.inr ⟨by rw [hm]; exact find_erase_self _ _, ?_⟩
      unfold fs_exists
      rw [hr, find_erase_self]
      rfl

/-- After the sample upload and after its deletion, every key of the mapping names a file. -/
theorem mapping_implies_blob_witness :
    (∀ e ∈ sample_store_hi.mapping_.entries, fs_exists sample_store_hi.disk e.1 = true) ∧
      (∀ e ∈ sample_store_hi.mapping_.entries, is_valid_id e.1 = true) ∧
      (add_file_from_buffer sample_store_hi add_fine_one (bytes "hi")
        (bytes "again.txt")).1.ok = true ∧
      (∀ e ∈ (add_file_from_buffer sample_store_hi add_fine_one (bytes "hi")
          (bytes "again.txt")).2.mapping_.entries,
        fs_exists (add_file_from_buffer sample_store_hi add_fine_one (bytes "hi")
          (bytes "again.txt")).2.disk e.1 = true) ∧
      (∀ e ∈ (delete_file sample_store_hi del_fine sample_id).2.2.mapping_.entries,
        fs_exists (delete_file sample_store_hi del_fine sample_id).2.2.disk e.1 = true) :=
  have h := mapping_implies_blob sample_store_hi add_fine_one del_fine (bytes "hi")
    (bytes "again.txt") sample_id (by decide)
  ⟨by decide, by decide, by decide, h.2.1 (by decide), h.2.2.1⟩

/-- C18: `add_file_from_buffer` leaves every file of `resources_dir` other than its own
temporary file as it was, hence every blob file (a file named by a valid id) that existed
before the call keeps its content, and it leaves the mapping entry of every id other than the
one it returns as it was; `delete_file(id)` leaves every file and every mapping entry other
than those of `id` as they were. -/
theorem write_once_frame (s : Storage) (oa : AddOutcome) (od : DeleteOutcome)
    (buffer original_name id : Str) :
    (∀ n c, s.disk.resources.find n = some c →
        n ≠ pick_id s.disk oa.draw 10 0 ++ bytes ".tmp" →
        (add_file_from_buffer s oa buffer original_name).2.disk.resources.find n = some c) ∧
      (∀ n c, is_valid_id n = true → s.disk.resources.find n = some c →
        (add_file_from_buffer s oa buffer original_name).2.disk.resources.find n = some c) ∧
      (∀ k, (add_file_from_buffer s oa buffer original_name).1.out_id ≠ some k →
        (add_file_from_buffer s oa buffer original_name).2.mapping_.find k =
          s.mapping_.find k) ∧
      (∀ n, n ≠ id →
        (delete_file s od id).2.2.disk.resources.find n = s.disk.resources.find n) ∧
      (∀ k, k ≠ id → (delete_file s od id).2.2.mapping_.find k = s.mapping_.find k) := by
  have hfiles : ∀ n c, s.disk.resources.find n = some c →
      n ≠ pick_id s.disk oa.draw 10 0 ++ bytes ".tmp" →
      (add_file_from_buffer s oa buffer original_name).2.disk.resources.find n = some c := by
    intro n c hn htmp
    rcases add_state_cases s oa buffer original_name with
      ⟨-, hs⟩ | ⟨-, -, hr⟩ | ⟨-, hfree, -, -, hr⟩
    · rw [hs]
      exact hn
    · rw [hr, find_assign_ne _ _ _ _ (fun h => htmp h.symm)]
      exact hn
    · have hne : pick_id s.disk oa.draw 10 0 ≠ n := by
        intro h
        unfold fs_exists at hfree
        rw [h, hn] at hfree
        cases hfree
      rw [hr, find_assign_ne _ _ _ _ hne, find_erase_ne _ _ _ (fun h => htmp h.symm)]
      exact hn
  refine ⟨hfiles, ?_, ?_, ?_, ?_⟩
  · intro n c hv hn
    apply hfiles n c hn
    intro h
    rw [h, tmp_name_not_valid] at hv
    cases hv
  · intro k hk
    rcases add_state_cases s oa buffer original_name with
      ⟨-, hs⟩ | ⟨-, hm, -⟩ | ⟨hout, -, -, hm, -⟩
    · rw [hs]
    · rw [hm]
    · rw [hm, find_assign_ne]
      intro h
      exact hk (by rw [hout, h])
  · intro n hn
    rcases delete_state_cases s od id with hs | ⟨-, hr⟩
    · rw [hs]
    · rw [hr, find_erase_ne _ _ _ (fun h => hn h.symm)]
  · intro k hk
    rcases delete_state_cases s od id with hs | ⟨hm, -⟩
    · rw [hs]
    · rw [hm, find_erase_ne _ _ _ (fun h => hk h.symm)]

/-- A second upload and the deletion of another id leave the first blob and its entry as
they were. -/
theorem write_once_frame_witness :
    is_valid_id sample_id = true ∧
      sample_store_hi.disk.resources.find sample_id = some (bytes "hi") ∧
      (add_file_from_buffer sample_store_hi add_fine_one (bytes "yo")
        (bytes "again.txt")).1.ok = true ∧
      (add_file_from_buffer sample_store_hi add_fine_one (bytes "yo")
        (bytes "again.txt")).2.disk.resources.find sample_id = some (bytes "hi") ∧
      (add_file_from_buffer sample_store_hi add_fine_one (bytes "yo")
        (bytes "again.txt")).2.mapping_.find sample_id =
          sample_store_hi.mapping_.find sample_id ∧
      (delete_file sample_store_hi del_fine (generate_id 22 (fun _ => 1))).2.2.mapping_.find
        sample_id = sample_store_hi.mapping_.find sample_id :=
  have h := write_once_frame sample_store_hi add_fine_one del_fine (bytes "yo")
    (bytes "again.txt") (generate_id 22 (fun _ => 1))
  ⟨by decide, by decide, by decide, h.2.1 sample_id (bytes "hi") (by decide) (by decide),
    h.2.2.1 sample_id (by decide), h.2.2.2.2 sample_id (by decide)⟩

/-! ## The multipart reader -/

/-- C19, at two failing requests.  For a file part with empty content the function returns
true with `data_start = 70` and `data_end = 68`: the boundary search already stops at the line
break before the boundary, and the code then takes off the two bytes before it, which are the
end of the header terminator, so the range given to `assign` is not in order.  For a content
`ab` followed by a line break the bytes between the header terminator and the line break
before the boundary are those four bytes, and the function extracts `ab`. -/
theorem multipart_strips_line_break_twice :
    parse_multipart_file sample_body_empty sample_content_type =
        some ⟨bytes "e.txt", 70, 68, none⟩ ∧
      parse_multipart_file sample_body_crlf sample_content_type =
        some ⟨bytes "a.txt", 70, 72, some (bytes "ab")⟩ ∧
      str_find sample_body_crlf (bytes "\r\n--B") 70 = some 74 ∧
      substr sample_body_crlf 70 (74 - 70) = bytes "ab\r\n" ∧
      parse_multipart_file sample_body_hi sample_content_type =
        some ⟨bytes "h.txt", 70, 72, some (bytes "hi")⟩ := by
  decide

/-! ## Termination of the JSON reader -/

/-- The main loop of `parse_json_object_string_map`, unfolded by one iteration. -/
theorem parse_pairs_loop_succ (content : Str) (fuel i : Nat) (m : UMap) :
    parse_pairs_loop content (fuel + 1) i m =
      match parse_pairs_step content i m with
      | Sum.inl r => r
      | Sum.inr next => parse_pairs_loop content fuel next.1 next.2 := by
  simp only [parse_pairs_loop, parse_pairs_step]
  split_ifs <;> rfl

theorem skip_ws_loop_ge (content : Str) :
    ∀ fuel i : Nat, i ≤ skip_ws_loop content fuel i := by
  intro fuel
  induction fuel with
  | zero => intro i; exact le_refl _
  | succ k ih =>
    intro i
    simp only [skip_ws_loop]
    split_ifs
    · exact le_trans (Nat.le_succ i) (ih (i + 1))
    · exact le_refl _

theorem skip_ws_loop_le (content : Str) :
    ∀ fuel i : Nat, i ≤ content.length → skip_ws_loop content fuel i ≤ content.length := by
  intro fuel
  induction fuel with
  | zero => intro i h; exact h
  | succ k ih =>
    intro i h
    simp only [skip_ws_loop]
    split_ifs with hc
    · exact ih (i + 1) hc.1
    · exact h

/-- With enough iterations the loop of `skip_ws` ends because its guard fails. -/
theorem skip_ws_loop_exit (content : Str) :
    ∀ fuel i : Nat, content.length - i ≤ fuel →
      ¬ (skip_ws_loop content fuel i < content.length ∧
        isspace (char_at content (skip_ws_loop content fuel i)) = true) := by
  intro fuel
  induction fuel with
  | zero =>
    intro i h
    simp only [skip_ws_loop]
    intro hc
    omega
  | succ k ih =>
    intro i h
    simp only [skip_ws_loop]
    split_ifs with hc
    · exact ih (i + 1) (by omega)
    · exact hc

theorem skip_ws_loop_stable (content : Str) :
    ∀ fuel i : Nat, content.length - i ≤ fuel →
      skip_ws_loop content (fuel + 1) i = skip_ws_loop content fuel i := by
  intro fuel
  induction fuel with
  | zero =>
    intro i h
    have hn : ¬ (i < content.length ∧ isspace (char_at content i) = true) :=
      fun hc => by omega
    simp only [skip_ws_loop, if_neg hn]
  | succ k ih =>
    intro i h
    rw [skip_ws_loop.eq_2 content i (k + 1), skip_ws_loop.eq_2 content i k]
    split_ifs
    · exact ih (i + 1) (by omega)
    · rfl

theorem skip_ws_ge (content : Str) (i : Nat) : i ≤ skip_ws content i :=
  skip_ws_loop_ge content _ i

theorem skip_ws_le (content : Str) (i : Nat) (h : i ≤ content.length) :
    skip_ws content i ≤ content.length :=
  skip_ws_loop_le content _ i h

theorem parse_string_loop_ge (content : Str) :
    ∀ (fuel i : Nat) (out : Str), i ≤ (parse_string_loop content fuel i out).2.1 := by
  intro fuel
  induction fuel with
  | zero => intro i out; exact le_refl _
  | succ k ih =>
    intro i out
    simp only [parse_string_loop]
    split_ifs <;>
      first
        | exact le_refl _
        | exact Nat.le_succ i
        | exact le_trans (by omega) (ih (i + 1 + 1) _)
        | exact le_trans (by omega) (ih (i + 1) _)

theorem parse_string_loop_le (content : Str) :
    ∀ (fuel i : Nat) (out : Str), i ≤ content.length →
      (parse_string_loop content fuel i out).2.1 ≤ content.length := by
  intro fuel
  induction fuel with
  | zero => intro i out h; exact h
  | succ k ih =>
    intro i out h
    simp only [parse_string_loop]
    split_ifs with h1 h2 h3 <;>
      first
        | exact h
        | exact h1
        | exact ih (i + 1 + 1) _ h3.2
        | exact ih (i + 1) _ h1

theorem parse_string_loop_true (content : Str) :
    ∀ (fuel i : Nat) (out : Str), (parse_string_loop content fuel i out).1 = true →
      i < (parse_string_loop content fuel i out).2.1 := by
  intro fuel
  induction fuel with
  | zero => intro i out h; cases h
  | succ k ih =>
    intro i out
    simp only [parse_string_loop]
    split_ifs <;> intro h <;>
      first
        | exact Nat.lt_succ_self i
        | exact lt_trans (by omega) (ih (i + 1 + 1) _ h)
        | exact lt_trans (by omega) (ih (i + 1) _ h)
        | exact absurd h (by decide)

/-- With enough iterations the loop of `parse_string` ends by a `return true` or because its
guard fails. -/
theorem parse_string_loop_exit (content : Str) :
    ∀ (fuel i : Nat) (out : Str), content.length - i ≤ fuel →
      (parse_string_loop content fuel i out).1 = false →
      content.length ≤ (parse_string_loop content fuel i out).2.1 := by
  intro fuel
  induction fuel with
  | zero =>
    intro i out h _
    simp only [parse_string_loop]
    omega
  | succ k ih =>
    intro i out hf
    simp only [parse_string_loop]
    split_ifs with h1 <;> intro h <;>
      first
        | exact ih (i + 1 + 1) _ (by omega) h
        | exact ih (i + 1) _ (by omega) h
        | exact Nat.le_of_not_lt h1
        | exact absurd h (by decide)

theorem parse_string_loop_stable (content : Str) :
    ∀ (fuel i : Nat) (out : Str), content.length - i ≤ fuel →
      parse_string_loop content (fuel + 1) i out = parse_string_loop content fuel i out := by
  intro fuel
  induction fuel with
  | zero =>
    intro i out h
    have hn : ¬ i < content.length := by omega
    simp only [parse_string_loop, if_neg hn]
  | succ k ih =>
    intro i out h
    have h1 : ∀ o : Str, parse_string_loop content (k + 1) (i + 1) o =
        parse_string_loop content k (i + 1) o := fun o => ih (i + 1) o (by omega)
    have h2 : ∀ o : Str, parse_string_loop content (k + 1) (i + 1 + 1) o =
        parse_string_loop content k (i + 1 + 1) o := fun o => ih (i + 1 + 1) o (by omega)
    rw [parse_string_loop.eq_2 content i out (k + 1), parse_string_loop.eq_2 content i out k]
    simp only [h1, h2]

theorem parse_string_ge (content : Str) (i : Nat) (out : Str) :
    i ≤ (parse_string content i out).2.1 := by
  unfold parse_string
  split_ifs
  · exact le_refl _
  · exact le_trans (Nat.le_succ i) (parse_string_loop_ge content _ (i + 1) [])

theorem parse_string_le (content : Str) (i : Nat) (out : Str) (h : i ≤ content.length) :
    (parse_string content i out).2.1 ≤ content.length := by
  unfold parse_string
  split_ifs with h1
  · exact h
  · exact parse_string_loop_le content _ (i + 1) [] (by omega)

theorem parse_string_true (content : Str) (i : Nat) (out : Str)
    (h : (parse_string content i out).1 = true) : i + 2 ≤ (parse_string content i out).2.1 := by
  unfold parse_string at h ⊢
  by_cases h1 : i ≥ content.length ∨ char_at content i ≠ 34
  · rw [if_pos h1] at h
    cases h
  · rw [if_neg h1] at h ⊢
    exact parse_string_loop_true content _ (i + 1) [] h

/-- An iteration of the main loop that enters the next iteration has moved the read index
forward, and not beyond the end of the input. -/
theorem parse_pairs_step_advances (content : Str) (i : Nat) (m : UMap) (i2 : Nat) (m2 : UMap)
    (h : parse_pairs_step content i m = Sum.inr (i2, m2)) :
    i < i2 ∧ i2 ≤ content.length := by
  have a1 := skip_ws_ge content i
  have b1 := skip_ws_le content i
  have a2 := parse_string_true content (skip_ws content i) []
  have b2 := parse_string_le content (skip_ws content i) []
  have a3 := skip_ws_ge content (parse_string content (skip_ws content i) []).2.1
  have b3 := skip_ws_le content (parse_string content (skip_ws content i) []).2.1
  have a4 := skip_ws_ge content
    (skip_ws content (parse_string content (skip_ws content i) []).2.1 + 1)
  have b4 := skip_ws_le content
    (skip_ws content (parse_string content (skip_ws content i) []).2.1 + 1)
  have a5 := parse_string_true content
    (skip_ws content (skip_ws content (parse_string content (skip_ws content i) []).2.1 + 1)) []
  have b5 := parse_string_le content
    (skip_ws content (skip_ws content (parse_string content (skip_ws content i) []).2.1 + 1)) []
  have a6 := skip_ws_ge content (parse_string content
    (skip_ws content (skip_ws content (parse_string content (skip_ws content i) []).2.1 + 1))
    []).2.1
  have b6 := skip_ws_le content (parse_string content
    (skip_ws content (skip_ws content (parse_string content (skip_ws content i) []).2.1 + 1))
    []).2.1
  unfold parse_pairs_step at h
  simp only at h
  by_cases h1 : i < content.length
  · rw [if_pos h1] at h
    by_cases h2 : (parse_string content (skip_ws content i) []).1 = false
    · rw [if_pos h2] at h
      cases h
    · rw [if_neg h2] at h
      have hk : (parse_string content (skip_ws content i) []).1 = true := by simpa using h2
      by_cases h3 : skip_ws content (parse_string content (skip_ws content i) []).2.1 ≥
          content.length ∨
          char_at content (skip_ws content (parse_string content (skip_ws content i) []).2.1) ≠
            58
      · rw [if_pos h3] at h
        cases h
      · rw [if_neg h3] at h
        have h3a : skip_ws content (parse_string content (skip_ws content i) []).2.1 <
            content.length := by
          by_contra hc
          exact h3 (Or.inl (by omega))
        by_cases h4 : (parse_string content (skip_ws content
            (skip_ws content (parse_string content (skip_ws content i) []).2.1 + 1)) []).1 = false
        · rw [if_pos h4] at h
          cases h
        · rw [if_neg h4] at h
          have hv : (parse_string content (skip_ws content
              (skip_ws content (parse_string content (skip_ws content i) []).2.1 + 1)) []).1 =
              true := by simpa using h4
          have c2 := a2 hk
          have c5 := a5 hv
          have d1 := b1 (by omega)
          have d2 := b2 d1
          have d3 := b3 d2
          have d4 := b4 (by omega)
          have d5 := b5 d4
          have d6 := b6 d5
          split_ifs at h with h5 h6
          · have heq := congrArg Prod.fst (Sum.inr.inj h)
            simp only at heq
            omega
          · have heq := congrArg Prod.fst (Sum.inr.inj h)
            simp only at heq
            omega
  · rw [if_neg h1] at h
    cases h

theorem parse_pairs_loop_stable (content : Str) :
    ∀ (fuel i : Nat) (m : UMap), content.length - i ≤ fuel →
      parse_pairs_loop content (fuel + 1) i m = parse_pairs_loop content fuel i m := by
  intro fuel
  induction fuel with
  | zero =>
    intro i m h
    have hn : ¬ i < content.length := by omega
    simp only [parse_pairs_loop, if_neg hn]
  | succ k ih =>
    intro i m h
    rw [parse_pairs_loop_succ content (k + 1) i m, parse_pairs_loop_succ content k i m]
    cases hs : parse_pairs_step content i m with
    | inl r => rfl
    | inr next =>
      have hadv := parse_pairs_step_advances content i m next.1 next.2 hs
      exact ih next.1 next.2 (by omega)

/-- The main loop is left within `content.length - i + 1` iterations, with the result that
`parse_pairs_loop` computes. -/
theorem parse_pairs_run_some (content : Str) :
    ∀ (fuel i : Nat) (m : UMap), content.length - i ≤ fuel →
      parse_pairs_run content (fuel + 1) i m = some (parse_pairs_loop content fuel i m) := by
  intro fuel
  induction fuel with
  | zero =>
    intro i m h
    have hn : ¬ i < content.length := by omega
    simp only [parse_pairs_run, parse_pairs_step, parse_pairs_loop, if_neg hn]
  | succ k ih =>
    intro i m h
    rw [parse_pairs_loop_succ content k i m, parse_pairs_run]
    cases hs : parse_pairs_step content i m with
    | inl r => rfl
    | inr next =>
      have hadv := parse_pairs_step_advances content i m next.1 next.2 hs
      exact ih next.1 next.2 (by omega)

theorem skip_ws_loop_enough (content : Str) (i : Nat) :
    ∀ d : Nat, skip_ws_loop content (content.length - i + d) i = skip_ws content i := by
  intro d
  induction d with
  | zero => rfl
  | succ d ih =>
    rw [← ih]
    exact skip_ws_loop_stable content (content.length - i + d) i (Nat.le_add_right _ _)

theorem parse_string_loop_enough (content : Str) (i : Nat) (out : Str) :
    ∀ d : Nat, parse_string_loop content (content.length - i + d) i out =
      parse_string_loop content (content.length - i) i out := by
  intro d
  induction d with
  | zero => rfl
  | succ d ih =>
    rw [← ih]
    exact parse_string_loop_stable content (content.length - i + d) i out (Nat.le_add_right _ _)

theorem parse_pairs_loop_enough (content : Str) (i : Nat) (m : UMap) :
    ∀ d : Nat, parse_pairs_loop content (content.length - i + d) i m =
      parse_pairs_loop content (content.length - i) i m := by
  intro d
  induction d with
  | zero => rfl
  | succ d ih =>
    rw [← ih]
    exact parse_pairs_loop_stable content (content.length - i + d) i m (Nat.le_add_right _ _)

/-- C20: `parse_json_object_string_map` terminates on every input.  Every iteration of its
main loop that enters a next iteration has moved the read index forward and not beyond the
input length, so from read index `i` the loop is left within `content.length - i + 1`
iterations, with a result that more iterations do not change; the loops of `skip_ws` and of
`parse_string` never move the index back nor beyond the input length, and they end within
`content.length - i` iterations: `skip_ws` because its guard fails, `parse_string` by its
`return true` or at the end of the input. -/
theorem parse_json_terminates (content : Str) (i : Nat) (m : UMap) (out : Str) :
    (∀ i2 m2, parse_pairs_step content i m = Sum.inr (i2, m2) →
        i < i2 ∧ i2 ≤ content.length) ∧
      (∀ fuel, content.length - i ≤ fuel →
        parse_pairs_run content (fuel + 1) i m =
            some (parse_pairs_loop content (content.length - i) i m) ∧
          parse_pairs_loop content fuel i m =
            parse_pairs_loop content (content.length - i) i m) ∧
      (i ≤ skip_ws content i ∧
        (i ≤ content.length → skip_ws content i ≤ content.length) ∧
        ¬ (skip_ws content i < content.length ∧
          isspace (char_at content (skip_ws content i)) = true) ∧
        ∀ fuel, content.length - i ≤ fuel → skip_ws_loop content fuel i = skip_ws content i) ∧
      (i ≤ (parse_string_loop content (content.length - i) i out).2.1 ∧
        (i ≤ content.length →
          (parse_string_loop content (content.length - i) i out).2.1 ≤ content.length) ∧
        ((parse_string_loop content (content.length - i) i out).1 = false →
          content.length ≤ (parse_string_loop content (content.length - i) i out).2.1) ∧
        ∀ fuel, content.length - i ≤ fuel →
          parse_string_loop content fuel i out =
            parse_string_loop content (content.length - i) i out) ∧
      (i ≤ (parse_string content i out).2.1 ∧
        (i ≤ content.length → (parse_string content i out).2.1 ≤ content.length)) := by
  have hfuel : ∀ fuel, content.length - i ≤ fuel →
      fuel = content.length - i + (fuel - (content.length - i)) := fun fuel h => by omega
  refine ⟨fun i2 m2 h => parse_pairs_step_advances content i m i2 m2 h, ?_, ?_, ?_, ?_⟩
  · intro fuel h
    have hstable : parse_pairs_loop content fuel i m =
        parse_pairs_loop content (content.length - i) i m := by
      rw [hfuel fuel h]
      exact parse_pairs_loop_enough content i m _
    exact ⟨by rw [parse_pairs_run_some content fuel i m h, hstable], hstable⟩
  · refine ⟨skip_ws_ge content i, skip_ws_le content i,
      skip_ws_loop_exit content _ i (le_refl _), ?_⟩
    intro fuel h
    rw [hfuel fuel h]
    exact skip_ws_loop_enough content i _
  · refine ⟨parse_string_loop_ge content _ i out, parse_string_loop_le content _ i out,
      parse_string_loop_exit content _ i out (le_refl _), ?_⟩
    intro fuel h
    rw [hfuel fuel h]
    exact parse_string_loop_enough content i out _
  · exact ⟨parse_string_ge content i out, parse_string_le content i out⟩

/-- On a malformed text the first iteration of the main loop moves the read index from 1 to
9, and the loop is left within the bound; the entry read before the unterminated string is
the result. -/
theorem parse_json_terminates_witness :
    parse_pairs_step sample_text_malformed 1 UMap.empty =
        Sum.inr (9, UMap.empty.assign (bytes "a") (bytes "b")) ∧
      (1 < 9 ∧ 9 ≤ sample_text_malformed.length) ∧
      sample_text_malformed.length - 1 ≤ sample_text_malformed.length ∧
      parse_pairs_run sample_text_malformed (sample_text_malformed.length + 1) 1 UMap.empty =
        some (parse_pairs_loop sample_text_malformed (sample_text_malformed.length - 1) 1
          UMap.empty) ∧
      parse_json_object_string_map sample_text_malformed =
        UMap.empty.assign (bytes "a") (bytes "b") :=
  have h := parse_json_terminates sample_text_malformed 1 UMap.empty []
  ⟨by decide, h.1 9 (UMap.empty.assign (bytes "a") (bytes "b")) (by decide), by decide,
    (h.2.1 sample_text_malformed.length (by decide)).1, by decide⟩

/-! ## The base name of an uploaded file -/

theorem find_last_of_none (s : Str) (c : Nat) (h : c ∉ s) : find_last_of s c = none := by
  induction s with
  | nil => rfl
  | cons x t ih =>
    have hx : ¬ x = c := fun e => h (by rw [e]; exact List.mem_cons_self _ _)
    have ht : c ∉ t := fun m => h (List.mem_cons_of_mem _ m)
    simp only [find_last_of, ih ht, if_neg hx]

theorem find_last_of_cons_some (x : Nat) (t : Str) (c i : Nat)
    (h : find_last_of t c = some i) : find_last_of (x :: t) c = some (i + 1) := by
  simp only [find_last_of, h]

theorem find_last_of_cons_none (x : Nat) (t : Str) (c : Nat) (h : find_last_of t c = none) :
    find_last_of (x :: t) c = if x = c then some 0 else none := by
  simp only [find_last_of, h]

/-- The call `find_last_of` returns the index of the last occurrence. -/
theorem find_last_of_last (pre rest : Str) (c : Nat) (h : c ∉ rest) :
    find_last_of (pre ++ c :: rest) c = some pre.length := by
  induction pre with
  | nil =>
    simp only [List.nil_append, find_last_of, find_last_of_none rest c h, if_true,
      List.length_nil]
  | cons p t ih =>
    exact find_last_of_cons_some p (t ++ c :: rest) c t.length ih

/-- A byte that does not occur from index `pre.length` on is last found before that index, if
at all. -/
theorem find_last_of_before (pre rest : Str) (sep c : Nat) (hne : sep ≠ c) (h : c ∉ rest) :
    find_last_of (pre ++ sep :: rest) c = none ∨
      ∃ j, j < pre.length ∧ find_last_of (pre ++ sep :: rest) c = some j := by
  induction pre with
  | nil =>
    left
    simp only [List.nil_append, find_last_of, find_last_of_none rest c h, if_neg hne]
  | cons p t ih =>
    rcases ih with hn | ⟨j, hj, hs⟩
    · have hcons := find_last_of_cons_none p (t ++ sep :: rest) c hn
      by_cases hp : p = c
      · right
        rw [if_pos hp] at hcons
        exact ⟨0, Nat.succ_pos _, hcons⟩
      · left
        rw [if_neg hp] at hcons
        exact hcons
    · right
      exact ⟨j + 1, Nat.succ_lt_succ hj, find_last_of_cons_some p (t ++ sep :: rest) c j hs⟩

/-- A string with a path separator splits at its last one. -/
theorem exists_last_separator (name : Str) (h : ∃ c ∈ name, c = 47 ∨ c = 92) :
    ∃ pre sep rest, name = pre ++ sep :: rest ∧ (sep = 47 ∨ sep = 92) ∧
      ∀ c ∈ rest, c ≠ 47 ∧ c ≠ 92 := by
  induction name with
  | nil =>
    obtain ⟨c, hc, -⟩ := h
    cases hc
  | cons x t ih =>
    by_cases ht : ∃ c ∈ t, c = 47 ∨ c = 92
    · obtain ⟨pre, sep, rest, hname, hsep, hrest⟩ := ih ht
      exact ⟨x :: pre, sep, rest, by rw [hname]; rfl, hsep, hrest⟩
    · have hfree : ∀ c ∈ t, c ≠ 47 ∧ c ≠ 92 := by
        intro c hc
        constructor
        · intro e
          exact ht ⟨c, hc, Or.inl e⟩
        · intro e
          exact ht ⟨c, hc, Or.inr e⟩
      obtain ⟨c, hc, hsep⟩ := h
      rcases List.mem_cons.1 hc with rfl | hc
      · exact ⟨[], c, t, rfl, hsep, hfree⟩
      · exact absurd ⟨c, hc, hsep⟩ ht

theorem substr_after (pre rest : Str) (sep : Nat) :
    substr (pre ++ sep :: rest) (pre.length + 1)
      ((pre ++ sep :: rest).length - (pre.length + 1)) = rest := by
  unfold substr
  have hd : List.drop (pre.length + 1) (pre ++ sep :: rest) = rest := by
    rw [List.drop_append_eq_append_drop]
    simp
  rw [hd]
  apply List.take_of_length_le
  simp only [List.length_append, List.length_cons]
  omega

/-- The function `basename_only` returns what follows the last separator. -/
theorem basename_only_after_last (pre rest : Str) (sep : Nat) (hsep : sep = 47 ∨ sep = 92)
    (hrest : ∀ c ∈ rest, c ≠ 47 ∧ c ≠ 92) : basename_only (pre ++ sep :: rest) = rest := by
  have h47 : (47 : Nat) ∉ rest := fun m => (hrest 47 m).1 rfl
  have h92 : (92 : Nat) ∉ rest := fun m => (hrest 92 m).2 rfl
  unfold basename_only
  rcases hsep with rfl | rfl
  · rw [find_last_of_last pre rest 47 h47]
    rcases find_last_of_before pre rest 47 92 (by decide) h92 with hn | ⟨j, hj, hs⟩
    · rw [hn]
      simp only [ne_eq, reduceCtorEq, not_false_eq_true, if_true]
      exact substr_after pre rest 47
    · rw [hs]
      simp only [Nat.max_eq_left (Nat.le_of_lt hj)]
      exact substr_after pre rest 47
  · rw [find_last_of_last pre rest 92 h92]
    rcases find_last_of_before pre rest 92 47 (by decide) h47 with hn | ⟨j, hj, hs⟩
    · rw [hn]
      simp only [ne_eq, not_true_eq_false, if_false]
      exact substr_after pre rest 92
    · rw [hs]
      simp only [Nat.max_eq_right (Nat.le_of_lt hj)]
      exact substr_after pre rest 92

/-- The function `basename_only` returns a name without separator as it is. -/
theorem basename_only_plain (name : Str) (h : ∀ c ∈ name, c ≠ 47 ∧ c ≠ 92) :
    basename_only name = name := by
  have h47 : (47 : Nat) ∉ name := fun m => (h 47 m).1 rfl
  have h92 : (92 : Nat) ∉ name := fun m => (h 92 m).2 rfl
  unfold basename_only
  rw [find_last_of_none name 47 h47, find_last_of_none name 92 h92]
  simp

/-- C21: `basename_only(name)` is the part of `name` that follows its last `/` or backslash,
whichever is later; it is a suffix of `name`, contains neither separator, and is `name` when
`name` contains neither; so the name that the upload handler passes to `add_file_from_buffer`,
and the name stored for a successful upload, contain no path separator. -/
theorem basename_only_spec (name : Str) (s : Storage) (o : AddOutcome) (content : Str) :
    List.IsSuffix (basename_only name) name ∧
      (∀ c ∈ basename_only name, c ≠ 47 ∧ c ≠ 92) ∧
      ((∀ c ∈ name, c ≠ 47 ∧ c ≠ 92) → basename_only name = name) ∧
      (∀ pre sep rest, name = pre ++ sep :: rest → (sep = 47 ∨ sep = 92) →
        (∀ c ∈ rest, c ≠ 47 ∧ c ≠ 92) → basename_only name = rest) ∧
      upload_store s o content name =
        add_file_from_buffer s o content (basename_only name) ∧
      (∀ id, (upload_store s o content name).1.out_id = some id →
        ∃ stored, get_original_name (upload_store s o content name).2 id = some stored ∧
          ∀ c ∈ stored, c ≠ 47 ∧ c ≠ 92) := by
  have hcases : (basename_only name = name ∧ ∀ c ∈ name, c ≠ 47 ∧ c ≠ 92) ∨
      ∃ pre sep rest, name = pre ++ sep :: rest ∧ (sep = 47 ∨ sep = 92) ∧
        (∀ c ∈ rest, c ≠ 47 ∧ c ≠ 92) ∧ basename_only name = rest := by
    by_cases h : ∃ c ∈ name, c = 47 ∨ c = 92
    · obtain ⟨pre, sep, rest, hname, hsep, hrest⟩ := exists_last_separator name h
      right
      exact ⟨pre, sep, rest, hname, hsep, hrest,
        by rw [hname]; exact basename_only_after_last pre rest sep hsep hrest⟩
    · have hfree : ∀ c ∈ name, c ≠ 47 ∧ c ≠ 92 := by
        intro c hc
        exact ⟨fun e => h ⟨c, hc, Or.inl e⟩, fun e => h ⟨c, hc, Or.inr e⟩⟩
      left
      exact ⟨basename_only_plain name hfree, hfree⟩
  have hfree : ∀ c ∈ basename_only name, c ≠ 47 ∧ c ≠ 92 := by
    rcases hcases with ⟨heq, hf⟩ | ⟨pre, sep, rest, -, -, hrest, heq⟩
    · rw [heq]
      exact hf
    · rw [heq]
      exact hrest
  refine ⟨?_, hfree, basename_only_plain name, ?_, rfl, ?_⟩
  · rcases hcases with ⟨heq, -⟩ | ⟨pre, sep, rest, hname, -, -, heq⟩
    · exact ⟨[], by rw [heq]; rfl⟩
    · rw [heq]
      exact ⟨pre ++ [sep], by rw [hname]; simp⟩
  · intro pre sep rest hname hsep hrest
    rw [hname]
    exact basename_only_after_last pre rest sep hsep hrest
  · intro id hid
    unfold upload_store at hid ⊢
    rcases add_state_cases s o content (basename_only name) with
      ⟨hnone, -⟩ | ⟨hnone, -, -⟩ | ⟨hout, -, -, hm, -⟩
    · rw [hnone] at hid
      cases hid
    · rw [hnone] at hid
      cases hid
    · rw [hout] at hid
      have hpick : pick_id s.disk o.draw 10 0 = id := Option.some.inj hid
      refine ⟨sanitize_filename (basename_only name), ?_, ?_⟩
      · unfold get_original_name
        rw [hm, hpick]
        exact find_assign_self _ _ _
      · rw [sanitize_filename_eq_map]
        intro c hc
        obtain ⟨d, hd, rfl⟩ := List.mem_map.1 hc
        have hdfree := hfree d hd
        by_cases hrep : d = 34 ∨ d = 92 ∨ d < 32
        · rw [if_pos hrep]
          exact ⟨by decide, by decide⟩
        · rw [if_neg hrep]
          exact hdfree

/-- A name sent with directories in both notations is cut after the last separator, a plain
name is kept, and the sample upload under the long name is stored as `q3.txt`. -/
theorem basename_only_spec_witness :
    (sample_path_name = bytes "C:\\docs/reports" ++ 92 :: bytes "q3.txt" ∧
        (∀ c ∈ bytes "q3.txt", c ≠ 47 ∧ c ≠ 92)) ∧
      basename_only sample_path_name = bytes "q3.txt" ∧
      ((∀ c ∈ bytes "hello.txt", c ≠ 47 ∧ c ≠ 92) ∧
        basename_only (bytes "hello.txt") = bytes "hello.txt") ∧
      ((upload_store sample_store add_fine (bytes "hi") sample_path_name).1.out_id =
          some sample_id ∧
        ∃ stored,
          get_original_name (upload_store sample_store add_fine (bytes "hi") sample_path_name).2
            sample_id = some stored ∧
          ∀ c ∈ stored, c ≠ 47 ∧ c ≠ 92) :=
  have h := basename_only_spec sample_path_name sample_store add_fine (bytes "hi")
  have h2 := basename_only_spec (bytes "hello.txt") sample_store add_fine (bytes "hi")
  ⟨⟨by decide, by decide⟩,
    h.2.2.2.1 (bytes "C:\\docs/reports") 92 (bytes "q3.txt") (by decide) (Or.inr rfl)
      (by decide),
    ⟨by decide, h2.2.2.1 (by decide)⟩,
    ⟨by decide, h.2.2.2.2.2 sample_id (by decide)⟩⟩

end SimpleFileSharing
